import Mathlib

/-!
A verification development for the threads-harvester content extractor.

The TypeScript sources are shallowly embedded here:
* `BaseExtractor.cleanText` (whitespace normalization) as `cleanText`,
  built from `collapseSpaceTab` (the regex `[ \t]+` → `' '` pass),
  `normNewlines` (the regex `\n\s*\n` → `"\n\n"` pass) and `trimWs`
  (JavaScript `String.prototype.trim`).  The memoization cache of the
  source is keyed by the raw input and never changes the returned value,
  so the embedding is the pure function.
* `BaseExtractor.generateId` as `generateId` over JavaScript 32-bit
  integer arithmetic (`jsToInt32`).
* `BaseExtractor.isElementVisible` as `isElementVisible` over `ElemInfo`,
  a record of the element properties the function reads (DOM layout and
  style state as provided by the host browser).  `getBoundingClientRect`
  widths are modelled as naturals: the code only tests them against zero.
* the DOM as `DomNode` trees, the text collection walker and its
  recursive fallback, and the four extraction strategies.
-/

namespace ThreadsHarvester

/-- Character codes matched by the JavaScript regex class `\s` (and removed
by `String.prototype.trim`). -/
def jsWsCodes : List Nat :=
  [0x9, 0xa, 0xb, 0xc, 0xd, 0x20, 0xa0, 0x1680,
   0x2000, 0x2001, 0x2002, 0x2003, 0x2004, 0x2005, 0x2006, 0x2007,
   0x2008, 0x2009, 0x200a, 0x2028, 0x2029, 0x202f, 0x205f, 0x3000, 0xfeff]

/-- JavaScript whitespace (`\s`). -/
def isJsWs (c : Char) : Bool := jsWsCodes.contains c.toNat

/-- The character class `[ \t]` of the first `cleanText` regex. -/
def isSpaceTab (c : Char) : Bool := c = ' ' || c = '\t'

/-- The pass `.replace(/[ \t]+/g, ' ')` of `cleanText`: every maximal run
of spaces and tabs becomes a single space; all other characters (newlines
in particular) are untouched. -/
def collapseSpaceTab : List Char → List Char
  | [] => []
  | [c] => if isSpaceTab c then [' '] else [c]
  | c :: d :: r =>
    if isSpaceTab c then
      if isSpaceTab d then collapseSpaceTab (d :: r)
      else ' ' :: collapseSpaceTab (d :: r)
    else c :: collapseSpaceTab (d :: r)

/-- Index of the last `'\n'` inside the maximal `\s`-prefix of the list,
if any.  This is where the backtracking greedy `\s*` of `/\n\s*\n/` ends:
the match extends to the last newline of the whitespace run. -/
def wsNlIdx : List Char → Option Nat
  | [] => none
  | c :: r =>
    if isJsWs c then
      match wsNlIdx r with
      | some k => some (k + 1)
      | none => if c = '\n' then some 0 else none
    else none

/-- Fuelled worker for the pass `.replace(/\n\s*\n/g, '\n\n')`: scanning
left to right, a newline whose following whitespace run contains another
newline matches up to the last such newline and is replaced by exactly two
newlines; scanning resumes after the match. -/
def normNewlinesF : Nat → List Char → List Char
  | _, [] => []
  | 0, l => l
  | fuel + 1, c :: r =>
    if c = '\n' then
      match wsNlIdx r with
      | some k => '\n' :: '\n' :: normNewlinesF fuel (r.drop (k + 1))
      | none => c :: normNewlinesF fuel r
    else c :: normNewlinesF fuel r

/-- The pass `.replace(/\n\s*\n/g, '\n\n')` of `cleanText`. -/
def normNewlines (l : List Char) : List Char := normNewlinesF l.length l

/-- JavaScript `trim` of the leading whitespace. -/
def trimLeftWs (l : List Char) : List Char := l.dropWhile isJsWs

/-- JavaScript `trim` of the trailing whitespace. -/
def trimRightWs (l : List Char) : List Char := (l.reverse.dropWhile isJsWs).reverse

/-- JavaScript `String.prototype.trim` on character lists. -/
def trimWs (l : List Char) : List Char := trimRightWs (trimLeftWs l)

/-- `BaseExtractor.cleanText`: collapse space/tab runs, normalize blank
lines, trim.  (The bounded memoization cache of the source is keyed by the
raw input and therefore does not affect the returned value.) -/
def cleanText (text : String) : String :=
  ⟨trimWs (normNewlines (collapseSpaceTab text.data))⟩

/-- JavaScript `.trim()` on strings. -/
def jsTrim (s : String) : String := ⟨trimWs s.data⟩

/-- JavaScript `.toLowerCase()` as the extractors use it (on tag names):
characterwise lowercasing, the definition of `String.toLower`. -/
def toLowerStr (s : String) : String := ⟨s.data.map Char.toLower⟩

/-- JavaScript `ToInt32`: reduce an integer modulo `2^32` into
`[-2^31, 2^31)`. -/
def jsToInt32 (n : Int) : Int :=
  if n % 4294967296 < 2147483648 then n % 4294967296 else n % 4294967296 - 4294967296

/-- One loop iteration of `generateId`:
`hash = ((hash << 5) - hash) + char; hash = hash & hash;`.
`<< 5` is a 32-bit shift (`ToInt32` of the product by 32), the subtraction
and addition are exact, and `hash & hash` truncates back to 32 bits. -/
def hashStep (hash : Int) (c : Nat) : Int :=
  jsToInt32 (jsToInt32 (hash * 32) - hash + c)

/-- `BaseExtractor.generateId`: the 32-bit rolling hash of the character
codes, returned as the decimal representation of its absolute value; the
empty string yields `"0"`. -/
def generateId (content : String) : String :=
  if content.data.length = 0 then "0"
  else (Int.natAbs (content.data.foldl (fun h c => hashStep h c.toNat) 0)).repr

/-- The element state read by `isElementVisible` and the extractors, as
provided by the host document.  `selectors` lists the CSS selectors the
element matches (the embedding of host-side CSS matching);
`hasOffsetParent` is `offsetParent !== null`; `hasComputedStyle` is false
when `window.getComputedStyle` throws; `rectWidth`/`rectHeight` are the
`getBoundingClientRect` dimensions (only their zeroness is ever tested). -/
structure ElemInfo where
  tagName : String
  selectors : List String
  styleDisplay : String
  styleVisibility : String
  isConnected : Bool
  hasOffsetParent : Bool
  rectWidth : Nat
  rectHeight : Nat
  hasComputedStyle : Bool
  computedDisplay : String
  computedVisibility : String
  innerHTML : String
  outerHTML : String
  href : String
deriving Repr, DecidableEq

/-- `BaseExtractor.isElementVisible`, line by line: connectedness, the
offsetParent/inline-display check, inline styles, bounding box, then
computed style with a fail-open default. -/
def isElementVisible (e : ElemInfo) : Bool :=
  if !e.isConnected then false
  else if !e.hasOffsetParent && e.styleDisplay == "none" then false
  else if e.styleDisplay == "none" || e.styleVisibility == "hidden" then false
  else if e.rectWidth == 0 || e.rectHeight == 0 then false
  else if e.hasComputedStyle then
    e.computedDisplay != "none" && e.computedVisibility != "hidden"
  else true

/-! ## The DOM model -/

/-- A DOM node: a text node or an element with its children in document
order. -/
inductive DomNode where
  | text (s : String)
  | elem (info : ElemInfo) (children : List DomNode)
deriving Repr

/-- An element: its host-provided state and its children. -/
structure Element where
  info : ElemInfo
  children : List DomNode
deriving Repr

/-- A document as the extractors read it: `window.location.href`,
`document.title` (the empty string models a missing title, the falsy case
of `document.title || fallback`) and the body forest. -/
structure Doc where
  locationHref : String
  title : String
  body : List DomNode
deriving Repr

mutual

/-- `node == node` structural equality on DOM nodes. -/
def beqDomNode : DomNode → DomNode → Bool
  | .text a, .text b => a == b
  | .elem i cs, .elem j ds => i == j && beqDomNodes cs ds
  | .text _, .elem _ _ => false
  | .elem _ _, .text _ => false

/-- Structural equality on DOM node lists. -/
def beqDomNodes : List DomNode → List DomNode → Bool
  | [], [] => true
  | x :: xs, y :: ys => beqDomNode x y && beqDomNodes xs ys
  | [], _ :: _ => false
  | _ :: _, [] => false

end

/-- Structural equality on elements. -/
def beqElement (a b : Element) : Bool :=
  a.info == b.info && beqDomNodes a.children b.children

mutual

/-- Pre-order (document-order) list of the elements of a node. -/
def elemsOfNode : DomNode → List Element
  | .text _ => []
  | .elem i cs => ⟨i, cs⟩ :: elemsOfNodes cs

/-- Pre-order (document-order) list of the elements of a forest. -/
def elemsOfNodes : List DomNode → List Element
  | [] => []
  | n :: rest => elemsOfNode n ++ elemsOfNodes rest

end

/-- `document.querySelectorAll(sel)`: all matching elements in document
order.  Selector matching itself is host behaviour, embedded as the
`selectors` field of each element. -/
def querySelectorAll (d : Doc) (sel : String) : List Element :=
  (elemsOfNodes d.body).filter (fun e => e.info.selectors.contains sel)

/-- `document.querySelector(sel)`: the first matching element. -/
def docQuerySelector (d : Doc) (sel : String) : Option Element :=
  (querySelectorAll d sel).head?

/-- `element.querySelector(sel)`: the first matching descendant. -/
def Element.querySel (e : Element) (sel : String) : Option Element :=
  ((elemsOfNodes e.children).filter (fun c => c.info.selectors.contains sel)).head?

mutual

/-- Ancestor chain search: find `target` in a forest, returning the chain
`self :: parent :: ... :: root` (nearest first) when found. -/
def findChainInNode (target : Element) : DomNode → List Element → Option (List Element)
  | .text _, _ => none
  | .elem i cs, anc =>
    let e : Element := ⟨i, cs⟩
    if beqElement e target then some (e :: anc)
    else findChainInNodes target cs (e :: anc)

/-- Ancestor chain search over a forest. -/
def findChainInNodes (target : Element) : List DomNode → List Element → Option (List Element)
  | [], _ => none
  | n :: rest, anc =>
    match findChainInNode target n anc with
    | some r => some r
    | none => findChainInNodes target rest anc

end

/-- `element.closest(sel)`: nearest self-or-ancestor matching `sel`. -/
def closest (d : Doc) (e : Element) (sel : String) : Option Element :=
  match findChainInNodes e d.body [] with
  | some chain => chain.find? (fun a => a.info.selectors.contains sel)
  | none => none

/-! ## Text collection -/

/-- The tags whose subtrees both text-collection paths exclude. -/
def excludedTags : List String := ["script", "style", "noscript", "svg", "canvas"]

mutual

/-- Fragments the TreeWalker path collects from one node: trimmed
non-empty text-node contents, in document order, pruned below excluded
tags (the walker rejects a text node when any ancestor tag is excluded). -/
def walkerFragsOfNode : DomNode → List String
  | .text s => if jsTrim s ≠ "" then [jsTrim s] else []
  | .elem i cs =>
    if excludedTags.contains (toLowerStr i.tagName) then [] else walkerFrags cs

/-- Fragments the TreeWalker path collects from a forest. -/
def walkerFrags : List DomNode → List String
  | [] => []
  | n :: rest => walkerFragsOfNode n ++ walkerFrags rest

end

/-- The TreeWalker also checks the root element itself (the ancestor walk
runs through `element` and beyond): an excluded root yields nothing. -/
def walkerFragsOfElement (e : Element) : List String :=
  if excludedTags.contains (toLowerStr e.info.tagName) then [] else walkerFrags e.children

/-- `textParts.join(' ')`: the parts separated by single spaces. -/
def joinSp : List String → String
  | [] => ""
  | [x] => x
  | x :: xs => x ++ " " ++ joinSp xs

/-- The standalone output of the primary (TreeWalker) path of
`extractTextFromElement`: accepted fragments joined by single spaces, then
`cleanText`. -/
def primaryWalkerText (e : Element) : String :=
  cleanText (joinSp (walkerFragsOfElement e))

mutual

/-- The parts one child node adds to the `textParts` list of
`extractTextRecursive`: text children contribute their trimmed non-empty
content; element children with excluded tags are skipped whole; other
element children contribute their recursive result (itself `cleanText` of
space-joined parts) when non-empty. -/
def recPartsOfNode : DomNode → List String
  | .text s => if jsTrim s ≠ "" then [jsTrim s] else []
  | .elem i cs =>
    if excludedTags.contains (toLowerStr i.tagName) then []
    else
      let childText := cleanText (joinSp (recParts cs))
      if childText ≠ "" then [childText] else []

/-- The `textParts` list built by `extractTextRecursive` over a forest of
children. -/
def recParts : List DomNode → List String
  | [] => []
  | n :: rest => recPartsOfNode n ++ recParts rest

end

/-- `BaseExtractor.extractTextRecursive`: the manual fallback walk, with
`cleanText` applied to the space-joined parts at every level. -/
def extractTextRecursive (e : Element) : String :=
  cleanText (joinSp (recParts e.children))

/-- `BaseExtractor.extractTextFromElement`: the TreeWalker pass joins its
fragments and returns their `cleanText` when non-empty; otherwise (and
when the walker is unavailable, which cannot happen in this embedding)
the recursive fallback runs. -/
def extractTextFromElement (e : Element) : String :=
  let result := joinSp (walkerFragsOfElement e)
  if result.length > 0 then cleanText result else extractTextRecursive e

/-! ## Extracted content -/

/-- `ContentItem` of `types.ts`.  The extractors always set
`textContent`; `URL` and `htmlContent` stay optional. -/
structure ContentItem where
  id : String
  element : Element
  URL : Option String := none
  textContent : String
  htmlContent : Option String
  type : String
  selected : Bool
deriving Repr

/-- `Content` of `types.ts`. -/
structure Content where
  pageURL : String
  title : String
  items : List ContentItem
deriving Repr

/-! ## Site selectors (`constants.ts`) -/

def SITE_SELECTORS.REDDIT.POST : String := "[slot=\"text-body\"]"
def SITE_SELECTORS.REDDIT.COMMENTS : String := "[slot=\"comment\"]"
def SITE_SELECTORS.HACKER_NEWS.POST : String := ".toptext"
def SITE_SELECTORS.HACKER_NEWS.POST_ID : String := ".subtext span.age > a"
def SITE_SELECTORS.HACKER_NEWS.COMMENTS : String := ".commtext"
def SITE_SELECTORS.HACKER_NEWS.COMMENT_ID : String := ".comhead span.age > a"
def SITE_SELECTORS.HACKER_NEWS.COMMENT_TREE : String := ".comment-tree .comtr"
def SITE_SELECTORS.HACKER_NEWS.STORY_ITEM : String := ".athing"
def SITE_SELECTORS.HACKER_NEWS.TITLE_LINK : String := ".titleline > a"
def SITE_SELECTORS.TWITTER.TWEET : String := "[data-testid=\"tweetText\"]"
def SITE_SELECTORS.TWITTER.TWEET_ARTICLE : String := "article[data-testid=\"tweet\"]"

/-! ## Strategies -/

/-- The ordered candidate selector groups of `GenericExtractor`. -/
def genericContentSelectors : List String :=
  ["article", "main", "[role=\"main\"]", ".content", "#content", ".post", ".entry-content"]

/-- The selector-group loop shared by the generic and Twitter extractors:
take the matches of the first selector with at least one match. -/
def firstNonEmptyMatch (d : Doc) : List String → List Element
  | [] => []
  | sel :: rest =>
    if (querySelectorAll d sel).length > 0 then querySelectorAll d sel
    else firstNonEmptyMatch d rest

/-- The admission step of the `GenericExtractor` item loop: no visibility
check, `textContent && textContent.length > 20`. -/
def genericItemOf (includeHtml : Bool) (element : Element) : Option ContentItem :=
  let textContent := extractTextFromElement element
  if textContent != "" && textContent.length > 20 then
    some { id := generateId textContent
           element := element
           textContent := textContent
           htmlContent := if includeHtml then some element.info.innerHTML else none
           type := "post"
           selected := false }
  else none

/-- `GenericExtractor.extract`.  The paragraph fallback runs only when no
primary selector matched any element, and filters by visibility and text
length `> 50`; the item loop then applies its own `> 20` bound. -/
def GenericExtractor.extract (includeHtml : Bool) (d : Doc) : Content :=
  let primary := firstNonEmptyMatch d genericContentSelectors
  let foundElements :=
    if primary.length = 0 then
      (querySelectorAll d "p").filter
        (fun p => isElementVisible p.info && (extractTextFromElement p).length > 50)
    else primary
  { pageURL := d.locationHref
    title := if d.title = "" then "Untitled Page" else d.title
    items := foundElements.filterMap (genericItemOf includeHtml) }

/-- The admission step of the `RedditExtractor` loops: visibility, then
`textContent && textContent.length > 10`, for both comments and posts. -/
def redditItemOf (includeHtml : Bool) (ty : String) (el : Element) : Option ContentItem :=
  if isElementVisible el.info then
    let textContent := extractTextFromElement el
    if textContent != "" && textContent.length > 10 then
      some { id := generateId textContent
             element := el
             textContent := textContent
             htmlContent := if includeHtml then some el.info.innerHTML else none
             type := ty
             selected := false }
    else none
  else none

/-- `RedditExtractor.extract`: all comments, then all posts. -/
def RedditExtractor.extract (includeHtml : Bool) (d : Doc) : Content :=
  { pageURL := d.locationHref
    title := if d.title = "" then "Reddit" else d.title
    items :=
      (querySelectorAll d SITE_SELECTORS.REDDIT.COMMENTS).filterMap
          (redditItemOf includeHtml "comment")
        ++ (querySelectorAll d SITE_SELECTORS.REDDIT.POST).filterMap
          (redditItemOf includeHtml "post") }

/-- The ordered candidate selector groups of `TwitterExtractor`. -/
def tweetSelectors : List String :=
  [SITE_SELECTORS.TWITTER.TWEET_ARTICLE, SITE_SELECTORS.TWITTER.TWEET,
   "article[role=\"article\"]", ".tweet-text", ".twitter-tweet"]

/-- The admission step of the primary Twitter loop: visibility of the
tweet container, text taken from the tweet-text child (or `.tweet-text`,
or the container itself), then `textContent.length > 5`. -/
def twitterItemOf (includeHtml : Bool) (tweetEl : Element) : Option ContentItem :=
  if isElementVisible tweetEl.info then
    let textElement :=
      match tweetEl.querySel SITE_SELECTORS.TWITTER.TWEET with
      | some te => te
      | none =>
        match tweetEl.querySel ".tweet-text" with
        | some te => te
        | none => tweetEl
    let textContent := extractTextFromElement textElement
    if textContent != "" && textContent.length > 5 then
      some { id := generateId textContent
             element := tweetEl
             textContent := textContent
             htmlContent := if includeHtml then some tweetEl.info.innerHTML else none
             type := "post"
             selected := false }
    else none
  else none

/-- The admission step of the Twitter `article` fallback loop:
visibility, then `20 < textContent.length < 2000`. -/
def twitterFallbackItemOf (includeHtml : Bool) (articleEl : Element) : Option ContentItem :=
  if isElementVisible articleEl.info then
    let textContent := extractTextFromElement articleEl
    if textContent != "" && textContent.length > 20 && textContent.length < 2000 then
      some { id := generateId textContent
             element := articleEl
             textContent := textContent
             htmlContent := if includeHtml then some articleEl.info.innerHTML else none
             type := "post"
             selected := false }
    else none
  else none

/-- `TwitterExtractor.extract`: first-match-wins over `tweetSelectors`;
when zero items result, a broader pass over all `article` elements. -/
def TwitterExtractor.extract (includeHtml : Bool) (d : Doc) : Content :=
  let tweetElements := firstNonEmptyMatch d tweetSelectors
  let primaryItems := tweetElements.filterMap (twitterItemOf includeHtml)
  { pageURL := d.locationHref
    title := if d.title = "" then "Twitter/X" else d.title
    items :=
      if primaryItems.length = 0 then
        (querySelectorAll d "article").filterMap (twitterFallbackItemOf includeHtml)
      else primaryItems }

/-- The title-link loop of `HackerNewsExtractor`: scan `.titleline > a`
matches for the first visible one with non-empty extracted text (no
length threshold), and stop there. -/
def hnTitleItems (includeHtml : Bool) (d : Doc) : List Element → List ContentItem
  | [] => []
  | titleLinkEl :: rest =>
    if isElementVisible titleLinkEl.info then
      let textContent := extractTextFromElement titleLinkEl
      if textContent != "" then
        [{ id := generateId textContent
           element :=
             (closest d titleLinkEl SITE_SELECTORS.HACKER_NEWS.STORY_ITEM).getD titleLinkEl
           URL := (docQuerySelector d SITE_SELECTORS.HACKER_NEWS.POST_ID).map (·.info.href)
           textContent := textContent
           htmlContent := if includeHtml then some titleLinkEl.info.outerHTML else none
           type := "post"
           selected := false }]
      else hnTitleItems includeHtml d rest
    else hnTitleItems includeHtml d rest

/-- The comment loop of `HackerNewsExtractor`: for each `.comtr` row, the
`.commtext` child is located, visibility is checked on it, and
`textContent.length > 10` admits the item (whose element is the row). -/
def hnCommentItemOf (includeHtml : Bool) (commentEl : Element) : Option ContentItem :=
  match commentEl.querySel SITE_SELECTORS.HACKER_NEWS.COMMENTS with
  | none => none
  | some commentContent =>
    if isElementVisible commentContent.info then
      let textContent := extractTextFromElement commentContent
      if textContent != "" && textContent.length > 10 then
        some { id := generateId textContent
               element := commentEl
               URL := (commentEl.querySel SITE_SELECTORS.HACKER_NEWS.COMMENT_ID).map
                        (·.info.href)
               textContent := textContent
               htmlContent := if includeHtml then some commentContent.info.innerHTML else none
               type := "comment"
               selected := false }
      else none
    else none

/-- The text-post branch of the Hacker News main-submission step: the
`.toptext` element contributes one post item when its text is non-empty
and longer than 10. -/
def hnMainItems (includeHtml : Bool) (d : Doc) (mainPost : Element) : List ContentItem :=
  let textContent := extractTextFromElement mainPost
  if textContent != "" && textContent.length > 10 then
    [{ id := generateId textContent
       element := mainPost
       URL := (docQuerySelector d SITE_SELECTORS.HACKER_NEWS.POST_ID).map (·.info.href)
       textContent := textContent
       htmlContent := if includeHtml then some mainPost.info.innerHTML else none
       type := "post"
       selected := false }]
  else []

/-- The main-submission step of `HackerNewsExtractor.extract`: a visible
`.toptext` post, else the title-link scan. -/
def hnPostItems (includeHtml : Bool) (d : Doc) : List ContentItem :=
  match docQuerySelector d SITE_SELECTORS.HACKER_NEWS.POST with
  | some mainPost =>
    if isElementVisible mainPost.info then hnMainItems includeHtml d mainPost
    else hnTitleItems includeHtml d (querySelectorAll d SITE_SELECTORS.HACKER_NEWS.TITLE_LINK)
  | none =>
    hnTitleItems includeHtml d (querySelectorAll d SITE_SELECTORS.HACKER_NEWS.TITLE_LINK)

/-- `HackerNewsExtractor.extract` (the `.js`-import variant the claims
cite): the main submission first (text post from `.toptext` with a `> 10`
bound, else the first visible title link with any non-empty text), then
all comments. -/
def HackerNewsExtractor.extract (includeHtml : Bool) (d : Doc) : Content :=
  { pageURL := d.locationHref
    title := if d.title = "" then "Hacker News" else d.title
    items :=
      hnPostItems includeHtml d
        ++ (querySelectorAll d SITE_SELECTORS.HACKER_NEWS.COMMENT_TREE).filterMap
          (hnCommentItemOf includeHtml) }

/-! ## Concrete test documents -/

/-- A connected, rendered element state: visible unless a field says
otherwise. -/
def mkInfo (tag : String) (sels : List String) (display : String) (w h : Nat) : ElemInfo :=
  { tagName := tag, selectors := sels, styleDisplay := display, styleVisibility := ""
    isConnected := true, hasOffsetParent := true, rectWidth := w, rectHeight := h
    hasComputedStyle := true, computedDisplay := "block", computedVisibility := "visible"
    innerHTML := "", outerHTML := "", href := "" }

/-- A page whose only content is an `article` hidden by inline
`display: none`, with ample text. -/
def hiddenArticleDoc : Doc :=
  { locationHref := "https://example.test/hidden"
    title := "Hidden"
    body := [.elem (mkInfo "article" ["article"] "none" 5 5)
      [.text "This hidden article easily exceeds twenty characters."]] }

/-- A Reddit-like page: one visible comment and one visible post. -/
def redditSampleDoc : Doc :=
  { locationHref := "https://www.reddit.com/r/test/"
    title := "r/test"
    body :=
      [.elem (mkInfo "shreddit-comment" ["[slot=\"comment\"]"] "" 100 20)
        [.text "A sample reddit comment body."],
       .elem (mkInfo "div" ["[slot=\"text-body\"]"] "" 100 20)
        [.text "A sample reddit post body text."]] }

/-- A Twitter-like page: one visible tweet article with a tweet-text
child. -/
def twitterSampleDoc : Doc :=
  { locationHref := "https://twitter.com/home"
    title := "X"
    body :=
      [.elem (mkInfo "article" ["article[data-testid=\"tweet\"]", "article"] "" 100 20)
        [.elem (mkInfo "div" ["[data-testid=\"tweetText\"]"] "" 50 10)
          [.text "Hello tweet world"]]] }

/-- A Hacker-News-like page: a visible `.toptext` submission and one
comment row with a visible `.commtext` body. -/
def hnSampleDoc : Doc :=
  { locationHref := "https://news.ycombinator.com/item"
    title := "HN"
    body :=
      [.elem (mkInfo "div" [".toptext"] "" 100 20)
        [.text "An interesting HN text post."],
       .elem (mkInfo "tr" [".comment-tree .comtr"] "" 100 20)
        [.elem (mkInfo "div" [".commtext"] "" 90 15)
          [.text "A thoughtful HN comment text."]]] }

/-- A Hacker-News-like page with no `.toptext` and a visible title link
whose text is only three characters long. -/
def hnShortTitleDoc : Doc :=
  { locationHref := "https://news.ycombinator.com/item2"
    title := "HN2"
    body :=
      [.elem (mkInfo "span" [".titleline"] "" 50 10)
        [.elem (mkInfo "a" [".titleline > a"] "" 40 8) [.text "abc"]]] }

/-- A generic page where two selector groups (`article` and `.content`)
both match an element with ample text. -/
def genericTwoGroupDoc : Doc :=
  { locationHref := "https://example.test/two"
    title := "Two"
    body :=
      [.elem (mkInfo "article" ["article"] "" 100 20)
        [.text "A generic article body with ample text."],
       .elem (mkInfo "div" [".content"] "" 100 20)
        [.text "Second group content element with enough text."]] }

/-- A Twitter-like page where the first and last selector groups both
match. -/
def twitterTwoGroupDoc : Doc :=
  { locationHref := "https://twitter.com/two"
    title := "X2"
    body :=
      [.elem (mkInfo "article" ["article[data-testid=\"tweet\"]", "article"] "" 100 20)
        [.elem (mkInfo "div" ["[data-testid=\"tweetText\"]"] "" 50 10)
          [.text "Hello tweet world"]],
       .elem (mkInfo "div" [".twitter-tweet"] "" 80 10)
        [.text "Other matched tweet text here."]] }

/-- A page with no tweet-selector matches and one visible `article` of
exactly ten characters of text: it passes the primary Twitter filter
(visible, length above 5) but not the fallback one (length above 20). -/
def twitterShortArticleDoc : Doc :=
  { locationHref := "https://twitter.com/short"
    title := "X3"
    body := [.elem (mkInfo "article" ["article"] "" 100 20) [.text "0123456789"]] }

/-- The `article` element of `twitterShortArticleDoc`. -/
def twitterShortArticleEl : Element :=
  ⟨mkInfo "article" ["article"] "" 100 20, [.text "0123456789"]⟩

/-- A page with no primary generic-selector matches and one visible
paragraph with well over fifty characters. -/
def genericParagraphDoc : Doc :=
  { locationHref := "https://example.test/para"
    title := "Para"
    body :=
      [.elem (mkInfo "p" ["p"] "" 100 20)
        [.text "This paragraph has well over fifty characters of sample content."]] }

/-- A generic page whose first selector group matches an element whose
text is too short, while a visible paragraph with long text exists: the
paragraph fallback would yield an item, but never runs. -/
def genericShortArticleDoc : Doc :=
  { locationHref := "https://example.test/shortart"
    title := "ShortArt"
    body :=
      [.elem (mkInfo "article" ["article"] "" 100 20) [.text "short text"],
       .elem (mkInfo "p" ["p"] "" 100 20)
        [.text "This visible paragraph holds sixty characters of sample text!!"]] }

/-- A visible `article` element with fallback-admissible text. -/
def twitterLongArticleEl : Element :=
  ⟨mkInfo "article" ["article"] "" 100 20,
   [.text "This article body exceeds twenty characters."]⟩

/-- The item the Twitter fallback loop builds from
`twitterLongArticleEl`. -/
def twitterLongArticleItem : ContentItem :=
  { id := generateId (extractTextFromElement twitterLongArticleEl)
    element := twitterLongArticleEl
    URL := none
    textContent := extractTextFromElement twitterLongArticleEl
    htmlContent := none
    type := "post"
    selected := false }

/-- A visible `article` element with admissible generic text. -/
def genericArticleEl : Element :=
  ⟨mkInfo "article" ["article"] "" 100 20,
   [.text "A generic article body with ample text."]⟩

/-- The item the generic loop builds from `genericArticleEl`. -/
def genericArticleItem : ContentItem :=
  { id := generateId (extractTextFromElement genericArticleEl)
    element := genericArticleEl
    URL := none
    textContent := extractTextFromElement genericArticleEl
    htmlContent := none
    type := "post"
    selected := false }

/-- A standalone `script` element with plain text content. -/
def scriptRootEl : Element :=
  ⟨mkInfo "script" [] "" 0 0, [.text "hello world"]⟩

/-- A subtree interleaving visible text with `script` and `style`
descendants. -/
def mixedContentEl : Element :=
  ⟨mkInfo "div" [] "" 100 20,
   [.text "A",
    .elem (mkInfo "script" [] "" 0 0) [.text "EVIL"],
    .elem (mkInfo "style" [] "" 0 0) [.text "BAD"],
    .text "B"]⟩

/-- A subtree whose only text is whitespace. -/
def wsOnlyEl : Element :=
  ⟨mkInfo "div" [] "" 100 20,
   [.text "   \n\n   ", .elem (mkInfo "span" [] "" 10 10) [.text " \t "]]⟩

/-! ## The spec-side comparison definitions -/

/-- The visibility decision order exactly as the spec words it
(§4.2, rules 1-6): connectedness; absent layout box combined with inline
`display: none`; inline `display: none` or `visibility: hidden`; zero
width or height; computed style unavailable (fail-open to visible);
computed `display: none` or `visibility: hidden`. -/
def visibilityDecisionSpec (e : ElemInfo) : Bool :=
  if e.isConnected = false then false
  else if e.hasOffsetParent = false ∧ e.styleDisplay = "none" then false
  else if e.styleDisplay = "none" ∨ e.styleVisibility = "hidden" then false
  else if e.rectWidth = 0 ∨ e.rectHeight = 0 then false
  else if e.hasComputedStyle = false then true
  else if e.computedDisplay = "none" ∨ e.computedVisibility = "hidden" then false
  else true

/-- The rolling hash exactly as the spec words it: per character code
`c`, `h = (h*31 + c) mod 2^32`. -/
def specRollingHash (s : String) : Nat :=
  s.data.foldl (fun h c => (h * 31 + c.toNat) % 4294967296) 0

/-- Read a value reduced mod `2^32` as a signed 32-bit integer (the
"truncated to 32 bits" of the spec). -/
def toSigned32 (u : Nat) : Int :=
  if u < 2147483648 then (u : Int) else (u : Int) - 4294967296

/-! ## Normalization invariants

Decidable predicates characterizing the fixed points of the two
`cleanText` rewriting passes, used to prove idempotence and the
walker/recursive-walk equivalence. -/

/-- Fixed points of `collapseSpaceTab`: no tab anywhere and no two
adjacent spaces. -/
def collapsedOk : List Char → Bool
  | [] => true
  | [c] => c != '\t'
  | c :: d :: r => c != '\t' && !(c == ' ' && d == ' ') && collapsedOk (d :: r)

/-- Does the maximal whitespace prefix contain a newline? -/
def runHasNl : List Char → Bool
  | [] => false
  | c :: r => if isJsWs c then c == '\n' || runHasNl r else false

/-- What must hold after a newline for `normNewlines` to leave it alone:
the following whitespace run contains no newline, except possibly one
immediately adjacent. -/
def nlCond : List Char → Bool
  | '\n' :: r2 => !runHasNl r2
  | r => !runHasNl r

/-- Fixed points of `normNewlines`: `nlCond` holds after every
newline. -/
def nlOk : List Char → Bool
  | [] => true
  | c :: r => (if c = '\n' then nlCond r else true) && nlOk r

/-- All characters are whitespace and none is a newline. -/
def allWsNoNl (l : List Char) : Bool := l.all (fun c => isJsWs c && c != '\n')

/-- The list is empty or starts with a non-whitespace character. -/
def headNonWs : List Char → Bool
  | [] => true
  | c :: _ => !isJsWs c

/-- Trimmed and non-empty: starts and ends with non-whitespace. -/
def tneL (l : List Char) : Bool :=
  !l.isEmpty && headNonWs l && headNonWs l.reverse

/-- Join two normalized chunks with a single space, dropping empty
sides. -/
def joinNE (x y : String) : String :=
  if x = "" then y else if y = "" then x else x ++ " " ++ y

mutual

/-- Every text node in the subtree holds only whitespace. -/
def allWsNode : DomNode → Bool
  | .text s => s.data.all isJsWs
  | .elem _ cs => allWsNodes cs

/-- Every text node in the forest holds only whitespace. -/
def allWsNodes : List DomNode → Bool
  | [] => true
  | n :: rest => allWsNode n && allWsNodes rest

end

/-! ## Hash lemmas -/

lemma jsToInt32_congr (x y : Int) (h : x % 4294967296 = y % 4294967296) :
    jsToInt32 x = jsToInt32 y := by
  unfold jsToInt32
  rw [h]

lemma jsToInt32_emod (x : Int) : jsToInt32 x % 4294967296 = x % 4294967296 := by
  unfold jsToInt32
  split <;> omega

lemma jsToInt32_bounds (x : Int) :
    -2147483648 ≤ jsToInt32 x ∧ jsToInt32 x < 2147483648 := by
  unfold jsToInt32
  have h1 : 0 ≤ x % 4294967296 := Int.emod_nonneg x (by norm_num)
  have h2 : x % 4294967296 < 4294967296 := Int.emod_lt_of_pos x (by norm_num)
  split <;> omega

lemma jsToInt32_ofNat (n : Nat) : jsToInt32 (n : Int) = toSigned32 (n % 4294967296) := by
  unfold jsToInt32 toSigned32
  have h : (((n % 4294967296 : Nat)) : Int) = (n : Int) % 4294967296 := by
    push_cast
    rfl
  have h1 : 0 ≤ (n : Int) % 4294967296 := Int.emod_nonneg _ (by norm_num)
  have h2 : n % 4294967296 < 4294967296 := Nat.mod_lt _ (by norm_num)
  split_ifs <;> omega

lemma hashStep_toSigned (u : Nat) (_hu : u < 4294967296) (c : Nat) :
    hashStep (toSigned32 u) c = toSigned32 ((u * 31 + c) % 4294967296) := by
  have hu32 : toSigned32 u = (u : Int) ∨ toSigned32 u = (u : Int) - 4294967296 := by
    unfold toSigned32
    split
    · exact Or.inl rfl
    · exact Or.inr rfl
  have hA := jsToInt32_emod (toSigned32 u * 32)
  have hB := jsToInt32_bounds (toSigned32 u * 32)
  have h1 : (jsToInt32 (toSigned32 u * 32) - toSigned32 u + (c : Int)) % 4294967296
      = ((u * 31 + c : Nat) : Int) % 4294967296 := by
    push_cast
    rcases hu32 with h | h <;> rw [h] at hA hB ⊢ <;> omega
  unfold hashStep
  rw [jsToInt32_congr _ _ h1, jsToInt32_ofNat]

lemma foldl_hashStep_toSigned : ∀ (l : List Char) (u : Nat), u < 4294967296 →
    l.foldl (fun h c => hashStep h c.toNat) (toSigned32 u)
      = toSigned32 (l.foldl (fun h c => (h * 31 + c.toNat) % 4294967296) u)
  | [], _, _ => rfl
  | c :: l, u, hu => by
    have hstep := hashStep_toSigned u hu c.toNat
    have hlt : (u * 31 + c.toNat) % 4294967296 < 4294967296 := Nat.mod_lt _ (by norm_num)
    simp only [List.foldl_cons, hstep]
    exact foldl_hashStep_toSigned l _ hlt

/-! ## Admission soundness of the item loops -/

lemma filterMap_get_prop {α β : Type} {P : β → Prop} (f : α → Option β)
    (hf : ∀ a b, f a = some b → P b) (l : List α) (i : Nat)
    (hi : i < (l.filterMap f).length) : P ((l.filterMap f).get ⟨i, hi⟩) := by
  rcases List.mem_filterMap.mp (List.get_mem _ _ _) with ⟨a, _, hfa⟩
  exact hf a _ hfa

lemma ite_some_none_eq {α : Type} {c : Prop} [Decidable c] {x y : α}
    (h : (if c then some x else none) = some y) : c ∧ y = x := by
  split at h
  next hc => exact ⟨hc, (Option.some.inj h).symm⟩
  next => exact absurd h (by simp)

lemma ite_none_eq_some {α : Type} {c : Prop} [Decidable c] {A : Option α} {y : α}
    (h : (if c then A else none) = some y) : c ∧ A = some y := by
  split at h
  next hc => exact ⟨hc, h⟩
  next => exact absurd h (by simp)

lemma genericItemOf_sound (inc : Bool) (el : Element) (it : ContentItem)
    (h : genericItemOf inc el = some it) :
    it.element = el ∧ it.textContent = extractTextFromElement el
      ∧ it.textContent ≠ "" ∧ it.textContent.length > 20 := by
  unfold genericItemOf at h
  rcases ite_some_none_eq h with ⟨hg, rfl⟩
  simp only [Bool.and_eq_true, bne_iff_ne, ne_eq, decide_eq_true_eq] at hg
  exact ⟨rfl, rfl, hg.1, hg.2⟩

lemma redditItemOf_sound (inc : Bool) (ty : String) (el : Element) (it : ContentItem)
    (h : redditItemOf inc ty el = some it) :
    isElementVisible el.info = true ∧ it.element = el ∧ it.textContent ≠ ""
      ∧ it.textContent.length > 10 ∧ it.type = ty := by
  unfold redditItemOf at h
  rcases ite_none_eq_some h with ⟨hvis, h⟩
  rcases ite_some_none_eq h with ⟨hg, rfl⟩
  simp only [Bool.and_eq_true, bne_iff_ne, ne_eq, decide_eq_true_eq] at hg
  exact ⟨hvis, rfl, hg.1, hg.2, rfl⟩

lemma twitterItemOf_sound (inc : Bool) (el : Element) (it : ContentItem)
    (h : twitterItemOf inc el = some it) :
    isElementVisible el.info = true ∧ it.element = el ∧ it.textContent ≠ ""
      ∧ it.textContent.length > 5 := by
  unfold twitterItemOf at h
  rcases ite_none_eq_some h with ⟨hvis, h⟩
  rcases ite_some_none_eq h with ⟨hg, rfl⟩
  simp only [Bool.and_eq_true, bne_iff_ne, ne_eq, decide_eq_true_eq] at hg
  exact ⟨hvis, rfl, hg.1, hg.2⟩

lemma twitterFallbackItemOf_sound (inc : Bool) (el : Element) (it : ContentItem)
    (h : twitterFallbackItemOf inc el = some it) :
    isElementVisible el.info = true ∧ it.element = el ∧ it.textContent ≠ ""
      ∧ it.textContent.length > 20 ∧ it.textContent.length < 2000 := by
  unfold twitterFallbackItemOf at h
  rcases ite_none_eq_some h with ⟨hvis, h⟩
  rcases ite_some_none_eq h with ⟨hg, rfl⟩
  simp only [Bool.and_eq_true, bne_iff_ne, ne_eq, decide_eq_true_eq] at hg
  exact ⟨hvis, rfl, hg.1.1, hg.1.2, hg.2⟩

lemma hnCommentItemOf_sound (inc : Bool) (el : Element) (it : ContentItem)
    (h : hnCommentItemOf inc el = some it) :
    ∃ cc : Element, isElementVisible cc.info = true ∧ it.element = el
      ∧ Element.querySel el SITE_SELECTORS.HACKER_NEWS.COMMENTS = some cc
      ∧ it.textContent = extractTextFromElement cc ∧ it.textContent ≠ ""
      ∧ it.textContent.length > 10 ∧ it.type = "comment" := by
  rcases hsel : Element.querySel el SITE_SELECTORS.HACKER_NEWS.COMMENTS with _ | cc
  · have hnone : hnCommentItemOf inc el = none := by
      unfold hnCommentItemOf
      rw [hsel]
    rw [hnone] at h
    exact absurd h (by simp)
  · unfold hnCommentItemOf at h
    rw [hsel] at h
    rcases ite_none_eq_some h with ⟨hvis, h⟩
    rcases ite_some_none_eq h with ⟨hg, rfl⟩
    simp only [Bool.and_eq_true, bne_iff_ne, ne_eq, decide_eq_true_eq] at hg
    exact ⟨cc, hvis, rfl, rfl, rfl, hg.1, hg.2, rfl⟩

lemma hnTitleItems_sound (inc : Bool) (d : Doc) :
    ∀ (L : List Element) (it : ContentItem), it ∈ hnTitleItems inc d L →
      ∃ c : Element, isElementVisible c.info = true
        ∧ it.element = (closest d c SITE_SELECTORS.HACKER_NEWS.STORY_ITEM).getD c
        ∧ it.textContent = extractTextFromElement c ∧ it.textContent ≠ ""
        ∧ it.type = "post"
  | [], it, h => absurd h (List.not_mem_nil it)
  | e :: rest, it, h => by
    unfold hnTitleItems at h
    by_cases hvis : isElementVisible e.info = true
    · rw [if_pos hvis] at h
      by_cases hne : (extractTextFromElement e != "") = true
      · rw [if_pos hne] at h
        rcases List.mem_singleton.mp h with rfl
        exact ⟨e, hvis, rfl, rfl, by simpa using hne, rfl⟩
      · rw [if_neg hne] at h
        exact hnTitleItems_sound inc d rest it h
    · rw [if_neg hvis] at h
      exact hnTitleItems_sound inc d rest it h

lemma mem_ite_singleton_nil {α : Type} {c : Prop} [Decidable c] {x y : α}
    (h : y ∈ (if c then [x] else [])) : c ∧ y = x := by
  split at h
  next hc => exact ⟨hc, List.mem_singleton.mp h⟩
  next => exact absurd h (List.not_mem_nil y)

lemma hnMainItems_sound (inc : Bool) (d : Doc) (mp : Element) (it : ContentItem)
    (h : it ∈ hnMainItems inc d mp) :
    it.element = mp ∧ it.textContent = extractTextFromElement mp ∧ it.textContent ≠ ""
      ∧ it.textContent.length > 10 ∧ it.type = "post" := by
  unfold hnMainItems at h
  rcases mem_ite_singleton_nil h with ⟨hg, rfl⟩
  simp only [Bool.and_eq_true, bne_iff_ne, ne_eq, decide_eq_true_eq] at hg
  exact ⟨rfl, rfl, hg.1, hg.2, rfl⟩

lemma hnPostItems_sound (inc : Bool) (d : Doc) (it : ContentItem)
    (h : it ∈ hnPostItems inc d) :
    ∃ c : Element, isElementVisible c.info = true
      ∧ it.textContent = extractTextFromElement c ∧ it.textContent ≠ ""
      ∧ it.type = "post"
      ∧ (it.element = c
        ∨ it.element = (closest d c SITE_SELECTORS.HACKER_NEWS.STORY_ITEM).getD c) := by
  rcases hq : docQuerySelector d SITE_SELECTORS.HACKER_NEWS.POST with _ | mp
  · have hx : hnPostItems inc d
        = hnTitleItems inc d (querySelectorAll d SITE_SELECTORS.HACKER_NEWS.TITLE_LINK) := by
      unfold hnPostItems
      rw [hq]
    rw [hx] at h
    rcases hnTitleItems_sound inc d _ it h with ⟨c, hvis, helem, ht, hne, hty⟩
    exact ⟨c, hvis, ht, hne, hty, Or.inr helem⟩
  · by_cases hvis : isElementVisible mp.info = true
    · have hx : hnPostItems inc d = hnMainItems inc d mp := by
        unfold hnPostItems
        rw [hq]
        exact if_pos hvis
      rw [hx] at h
      rcases hnMainItems_sound inc d mp it h with ⟨helem, ht, hne, _, hty⟩
      exact ⟨mp, hvis, ht, hne, hty, Or.inl helem⟩
    · have hx : hnPostItems inc d
          = hnTitleItems inc d (querySelectorAll d SITE_SELECTORS.HACKER_NEWS.TITLE_LINK) := by
        unfold hnPostItems
        rw [hq]
        exact if_neg hvis
      rw [hx] at h
      rcases hnTitleItems_sound inc d _ it h with ⟨c, hvis2, helem, ht, hne, hty⟩
      exact ⟨c, hvis2, ht, hne, hty, Or.inr helem⟩

lemma firstNonEmptyMatch_of_empty (d : Doc) : ∀ (sels : List String),
    (∀ sel ∈ sels, (querySelectorAll d sel).length = 0) → firstNonEmptyMatch d sels = []
  | [], _ => rfl
  | sel :: rest, h => by
    unfold firstNonEmptyMatch
    have h0 := h sel (List.mem_cons_self _ _)
    rw [if_neg (by omega)]
    exact firstNonEmptyMatch_of_empty d rest (fun s hs => h s (List.mem_cons_of_mem _ hs))

lemma firstNonEmptyMatch_first (d : Doc) : ∀ (sels : List String) (i : Nat)
    (h1 : i < sels.length),
    (∀ sel ∈ sels.take i, (querySelectorAll d sel).length = 0) →
    (querySelectorAll d (sels.get ⟨i, h1⟩)).length ≠ 0 →
    firstNonEmptyMatch d sels = querySelectorAll d (sels.get ⟨i, h1⟩)
  | [], i, h1, _, _ => absurd h1 (by simp)
  | sel :: rest, 0, _, _, hne => by
    have hne' : (querySelectorAll d sel).length ≠ 0 := hne
    unfold firstNonEmptyMatch
    exact if_pos (by omega)
  | sel :: rest, i + 1, h1, hpre, hne => by
    have h2 : i < rest.length := by simpa using h1
    have hne' : (querySelectorAll d (rest.get ⟨i, h2⟩)).length ≠ 0 := hne
    unfold firstNonEmptyMatch
    have h0 : (querySelectorAll d sel).length = 0 := hpre sel (by simp)
    rw [if_neg (by omega)]
    exact firstNonEmptyMatch_first d rest i h2
      (fun s hs => hpre s (by simp [hs])) hne'

/-! ## Claim theorems: C6 and C7 -/

/-- C6: `isElementVisible` implements the layered short-circuit decision
order of the spec: not attached → not visible; absent layout box with
inline `display: none` → not visible; inline `display: none` or
`visibility: hidden` → not visible; zero-area bounding box → not
visible; otherwise computed style decides, and a failing computed-style
query yields visible (fail-open). -/
theorem isElementVisible_matches_decision_order (e : ElemInfo) :
    isElementVisible e = visibilityDecisionSpec e := by
  unfold isElementVisible visibilityDecisionSpec
  cases hc : e.isConnected <;>
    cases hop : e.hasOffsetParent <;>
      cases hcs : e.hasComputedStyle <;>
        by_cases hd : e.styleDisplay = "none" <;>
          by_cases hv : e.styleVisibility = "hidden" <;>
            by_cases hw : e.rectWidth = 0 <;>
              by_cases hh : e.rectHeight = 0 <;>
                by_cases hcd : e.computedDisplay = "none" <;>
                  by_cases hcv : e.computedVisibility = "hidden" <;>
                    simp_all

/-- C7: `generateId` returns the decimal representation of the absolute
value of the signed 32-bit truncation of the rolling hash
`h = h*31 + c mod 2^32` over the character codes; the empty string maps
to `"0"`; and the function is deterministic (pure, no external state). -/
theorem generateId_spec :
    (∀ s : String, generateId s = (toSigned32 (specRollingHash s)).natAbs.repr)
      ∧ generateId "" = "0"
      ∧ ∀ s : String, generateId s = generateId s := by
  refine ⟨fun s => ?_, rfl, fun _ => rfl⟩
  unfold generateId specRollingHash
  split
  · next h =>
    have : s.data = [] := List.length_eq_zero.mp h
    rw [this]
    rfl
  · next h =>
    have h0 : (0 : Int) = toSigned32 0 := rfl
    rw [h0, foldl_hashStep_toSigned s.data 0 (by norm_num)]

/-! ## Claim C1: visibility gating -/

/-- C1 (counterexample): the generic strategy's primary path performs no
visibility check — an `article` hidden by inline `display: none` with
ample text still contributes an item to `extract()`. -/
theorem generic_includes_hidden_article :
    ((GenericExtractor.extract false hiddenArticleDoc).items.map
        (fun it => it.element.info.styleDisplay) = ["none"])
      ∧ (GenericExtractor.extract false hiddenArticleDoc).items.length = 1 := by
  constructor <;> decide

/-- C1 (amended): inline `display: none` and zero-area bounding boxes
always fail `isElementVisible`; every item the Reddit and Twitter
strategies admit has a visible source element; and every Hacker News item
has a checked candidate that passed the visibility check and supplies the
item's text — the candidate is the item's element itself (main post), the
title link whose closest story row (or the link itself) becomes the
item's element, or the `.commtext` child located inside the item's
comment-row element.  The generic strategy's primary path, however, does
not visibility-filter (see the counterexample). -/
theorem visibility_gating_amended :
    (∀ e : ElemInfo, e.styleDisplay = "none" → isElementVisible e = false)
    ∧ (∀ e : ElemInfo, e.rectWidth = 0 ∨ e.rectHeight = 0 → isElementVisible e = false)
    ∧ (∀ (inc : Bool) (d : Doc) (i : Nat)
        (h : i < (RedditExtractor.extract inc d).items.length),
        isElementVisible
          ((RedditExtractor.extract inc d).items.get ⟨i, h⟩).element.info = true)
    ∧ (∀ (inc : Bool) (d : Doc) (i : Nat)
        (h : i < (TwitterExtractor.extract inc d).items.length),
        isElementVisible
          ((TwitterExtractor.extract inc d).items.get ⟨i, h⟩).element.info = true)
    ∧ (∀ (inc : Bool) (d : Doc) (i : Nat)
        (h : i < (HackerNewsExtractor.extract inc d).items.length),
        ∃ c : Element, isElementVisible c.info = true
          ∧ ((HackerNewsExtractor.extract inc d).items.get ⟨i, h⟩).textContent
            = extractTextFromElement c
          ∧ (((HackerNewsExtractor.extract inc d).items.get ⟨i, h⟩).element = c
            ∨ ((HackerNewsExtractor.extract inc d).items.get ⟨i, h⟩).element
              = (closest d c SITE_SELECTORS.HACKER_NEWS.STORY_ITEM).getD c
            ∨ Element.querySel
                ((HackerNewsExtractor.extract inc d).items.get ⟨i, h⟩).element
                SITE_SELECTORS.HACKER_NEWS.COMMENTS = some c)) := by
  refine ⟨?_, ?_, ?_, ?_, ?_⟩
  · intro e h
    cases hc : e.isConnected <;> cases hop : e.hasOffsetParent <;>
      simp [isElementVisible, h, hc, hop]
  · intro e h
    unfold isElementVisible
    split_ifs <;> simp_all
  · intro inc d i h
    have hm : (RedditExtractor.extract inc d).items.get ⟨i, h⟩
        ∈ (querySelectorAll d SITE_SELECTORS.REDDIT.COMMENTS).filterMap
            (redditItemOf inc "comment")
          ++ (querySelectorAll d SITE_SELECTORS.REDDIT.POST).filterMap
            (redditItemOf inc "post") := List.get_mem _ _ _
    rcases List.mem_append.mp hm with hmem | hmem <;>
      rcases List.mem_filterMap.mp hmem with ⟨a, _, hfa⟩ <;>
      rcases redditItemOf_sound _ _ _ _ hfa with ⟨hvis, helem, _⟩ <;>
      rw [helem] <;> exact hvis
  · intro inc d i h
    have hm : (TwitterExtractor.extract inc d).items.get ⟨i, h⟩
        ∈ if ((firstNonEmptyMatch d tweetSelectors).filterMap (twitterItemOf inc)).length = 0
          then (querySelectorAll d "article").filterMap (twitterFallbackItemOf inc)
          else (firstNonEmptyMatch d tweetSelectors).filterMap (twitterItemOf inc) :=
      List.get_mem _ _ _
    split at hm
    · rcases List.mem_filterMap.mp hm with ⟨a, _, hfa⟩
      rcases twitterFallbackItemOf_sound _ _ _ hfa with ⟨hvis, helem, _⟩
      rw [helem]
      exact hvis
    · rcases List.mem_filterMap.mp hm with ⟨a, _, hfa⟩
      rcases twitterItemOf_sound _ _ _ hfa with ⟨hvis, helem, _⟩
      rw [helem]
      exact hvis
  · intro inc d i h
    have hm : (HackerNewsExtractor.extract inc d).items.get ⟨i, h⟩
        ∈ hnPostItems inc d
          ++ (querySelectorAll d SITE_SELECTORS.HACKER_NEWS.COMMENT_TREE).filterMap
            (hnCommentItemOf inc) := List.get_mem _ _ _
    rcases List.mem_append.mp hm with hmem | hmem
    · rcases hnPostItems_sound inc d _ hmem with ⟨c, hvis, ht, _, _, helem⟩
      rcases helem with h1 | h2
      · exact ⟨c, hvis, ht, Or.inl h1⟩
      · exact ⟨c, hvis, ht, Or.inr (Or.inl h2)⟩
    · rcases List.mem_filterMap.mp hmem with ⟨a, _, hfa⟩
      rcases hnCommentItemOf_sound _ _ _ hfa with ⟨cc, hvis, helem, hqs, ht, _⟩
      refine ⟨cc, hvis, ht, Or.inr (Or.inr ?_)⟩
      rw [helem]
      exact hqs

/-- C1 (witness): the amended theorem applied at concrete inputs — a
hidden and a zero-width element state, and the first item of each sample
page. -/
theorem visibility_gating_amended_check :
    isElementVisible (mkInfo "div" [] "none" 5 5) = false
    ∧ isElementVisible (mkInfo "div" [] "" 0 7) = false
    ∧ isElementVisible
        ((RedditExtractor.extract false redditSampleDoc).items.get
          ⟨0, by decide⟩).element.info = true
    ∧ isElementVisible
        ((TwitterExtractor.extract false twitterSampleDoc).items.get
          ⟨0, by decide⟩).element.info = true
    ∧ ∃ c : Element, isElementVisible c.info = true
        ∧ ((HackerNewsExtractor.extract false hnSampleDoc).items.get
            ⟨0, by decide⟩).textContent = extractTextFromElement c
        ∧ (((HackerNewsExtractor.extract false hnSampleDoc).items.get
              ⟨0, by decide⟩).element = c
          ∨ ((HackerNewsExtractor.extract false hnSampleDoc).items.get
              ⟨0, by decide⟩).element
            = (closest hnSampleDoc c SITE_SELECTORS.HACKER_NEWS.STORY_ITEM).getD c
          ∨ Element.querySel
              ((HackerNewsExtractor.extract false hnSampleDoc).items.get
                ⟨0, by decide⟩).element
              SITE_SELECTORS.HACKER_NEWS.COMMENTS = some c) :=
  ⟨visibility_gating_amended.1 _ rfl,
   visibility_gating_amended.2.1 _ (Or.inl rfl),
   visibility_gating_amended.2.2.1 false redditSampleDoc 0 (by decide),
   visibility_gating_amended.2.2.2.1 false twitterSampleDoc 0 (by decide),
   visibility_gating_amended.2.2.2.2 false hnSampleDoc 0 (by decide)⟩

/-! ## Claim C2: minimum length thresholds -/

/-- C2 (counterexample): the Hacker News title-link branch admits any
non-empty text — here a 3-character title becomes an item, below every
observed threshold (5, 10, 20). -/
theorem hn_admits_three_char_title :
    ((HackerNewsExtractor.extract false hnShortTitleDoc).items.map
        (fun it => it.textContent) = ["abc"])
      ∧ ("abc" : String).length = 3 := by
  constructor <;> decide

/-- C2 (amended): every admitted item has non-empty text, and every
admission path except the Hacker News title-link branch enforces a strict
minimum length (generic: 20; Reddit: 10; Twitter: 5; Hacker News main
`.toptext` post and comments: 10 — the main-post bound stated on its
admission path `hnMainItems`); the title-link branch requires only
non-emptiness. -/
theorem min_length_thresholds_amended :
    (∀ (inc : Bool) (d : Doc) (i : Nat)
      (h : i < (GenericExtractor.extract inc d).items.length),
      ((GenericExtractor.extract inc d).items.get ⟨i, h⟩).textContent ≠ ""
        ∧ ((GenericExtractor.extract inc d).items.get ⟨i, h⟩).textContent.length > 20)
    ∧ (∀ (inc : Bool) (d : Doc) (i : Nat)
      (h : i < (RedditExtractor.extract inc d).items.length),
      ((RedditExtractor.extract inc d).items.get ⟨i, h⟩).textContent ≠ ""
        ∧ ((RedditExtractor.extract inc d).items.get ⟨i, h⟩).textContent.length > 10)
    ∧ (∀ (inc : Bool) (d : Doc) (i : Nat)
      (h : i < (TwitterExtractor.extract inc d).items.length),
      ((TwitterExtractor.extract inc d).items.get ⟨i, h⟩).textContent ≠ ""
        ∧ ((TwitterExtractor.extract inc d).items.get ⟨i, h⟩).textContent.length > 5)
    ∧ (∀ (inc : Bool) (d : Doc) (i : Nat)
      (h : i < (HackerNewsExtractor.extract inc d).items.length),
      ((HackerNewsExtractor.extract inc d).items.get ⟨i, h⟩).textContent ≠ ""
        ∧ (((HackerNewsExtractor.extract inc d).items.get ⟨i, h⟩).type = "comment" →
            ((HackerNewsExtractor.extract inc d).items.get ⟨i, h⟩).textContent.length > 10))
    ∧ (∀ (inc : Bool) (d : Doc) (mp : Element) (it : ContentItem),
      it ∈ hnMainItems inc d mp →
        it.textContent ≠ "" ∧ it.textContent.length > 10) := by
  refine ⟨?_, ?_, ?_, ?_, ?_⟩
  · intro inc d i h
    have hm : (GenericExtractor.extract inc d).items.get ⟨i, h⟩
        ∈ (if (firstNonEmptyMatch d genericContentSelectors).length = 0
            then (querySelectorAll d "p").filter
              (fun p => isElementVisible p.info && (extractTextFromElement p).length > 50)
            else firstNonEmptyMatch d genericContentSelectors).filterMap
          (genericItemOf inc) := List.get_mem _ _ _
    rcases List.mem_filterMap.mp hm with ⟨a, _, hfa⟩
    rcases genericItemOf_sound _ _ _ hfa with ⟨_, _, hne, hlen⟩
    exact ⟨hne, hlen⟩
  · intro inc d i h
    have hm : (RedditExtractor.extract inc d).items.get ⟨i, h⟩
        ∈ (querySelectorAll d SITE_SELECTORS.REDDIT.COMMENTS).filterMap
            (redditItemOf inc "comment")
          ++ (querySelectorAll d SITE_SELECTORS.REDDIT.POST).filterMap
            (redditItemOf inc "post") := List.get_mem _ _ _
    rcases List.mem_append.mp hm with hmem | hmem <;>
      rcases List.mem_filterMap.mp hmem with ⟨a, _, hfa⟩ <;>
      rcases redditItemOf_sound _ _ _ _ hfa with ⟨_, _, hne, hlen, _⟩ <;>
      exact ⟨hne, hlen⟩
  · intro inc d i h
    have hm : (TwitterExtractor.extract inc d).items.get ⟨i, h⟩
        ∈ if ((firstNonEmptyMatch d tweetSelectors).filterMap (twitterItemOf inc)).length = 0
          then (querySelectorAll d "article").filterMap (twitterFallbackItemOf inc)
          else (firstNonEmptyMatch d tweetSelectors).filterMap (twitterItemOf inc) :=
      List.get_mem _ _ _
    split at hm
    · rcases List.mem_filterMap.mp hm with ⟨a, _, hfa⟩
      rcases twitterFallbackItemOf_sound _ _ _ hfa with ⟨_, _, hne, hlen, _⟩
      exact ⟨hne, by omega⟩
    · rcases List.mem_filterMap.mp hm with ⟨a, _, hfa⟩
      rcases twitterItemOf_sound _ _ _ hfa with ⟨_, _, hne, hlen⟩
      exact ⟨hne, hlen⟩
  · intro inc d i h
    have hm : (HackerNewsExtractor.extract inc d).items.get ⟨i, h⟩
        ∈ hnPostItems inc d
          ++ (querySelectorAll d SITE_SELECTORS.HACKER_NEWS.COMMENT_TREE).filterMap
            (hnCommentItemOf inc) := List.get_mem _ _ _
    rcases List.mem_append.mp hm with hmem | hmem
    · rcases hnPostItems_sound inc d _ hmem with ⟨c, _, _, hne, hty, _⟩
      refine ⟨hne, fun hcty => ?_⟩
      rw [hty] at hcty
      exact absurd hcty (by decide)
    · rcases List.mem_filterMap.mp hmem with ⟨a, _, hfa⟩
      rcases hnCommentItemOf_sound _ _ _ hfa with ⟨cc, _, _, _, _, hne, hlen, _⟩
      exact ⟨hne, fun _ => hlen⟩
  · intro inc d mp it hmem
    rcases hnMainItems_sound inc d mp it hmem with ⟨_, _, hne, hlen, _⟩
    exact ⟨hne, hlen⟩

/-- C2 (witness): the thresholds at the first item of each sample page. -/
theorem min_length_thresholds_amended_check :
    (((GenericExtractor.extract false genericTwoGroupDoc).items.get
        ⟨0, by decide⟩).textContent ≠ ""
      ∧ ((GenericExtractor.extract false genericTwoGroupDoc).items.get
        ⟨0, by decide⟩).textContent.length > 20)
    ∧ (((RedditExtractor.extract false redditSampleDoc).items.get
        ⟨0, by decide⟩).textContent ≠ ""
      ∧ ((RedditExtractor.extract false redditSampleDoc).items.get
        ⟨0, by decide⟩).textContent.length > 10)
    ∧ (((TwitterExtractor.extract false twitterSampleDoc).items.get
        ⟨0, by decide⟩).textContent ≠ ""
      ∧ ((TwitterExtractor.extract false twitterSampleDoc).items.get
        ⟨0, by decide⟩).textContent.length > 5)
    ∧ (((HackerNewsExtractor.extract false hnSampleDoc).items.get
        ⟨0, by decide⟩).textContent ≠ ""
      ∧ (((HackerNewsExtractor.extract false hnSampleDoc).items.get
          ⟨0, by decide⟩).type = "comment" →
          ((HackerNewsExtractor.extract false hnSampleDoc).items.get
            ⟨0, by decide⟩).textContent.length > 10))
    ∧ (((hnMainItems false hnSampleDoc
          ⟨mkInfo "div" [".toptext"] "" 100 20,
           [.text "An interesting HN text post."]⟩).get
        ⟨0, by decide⟩).textContent ≠ ""
      ∧ ((hnMainItems false hnSampleDoc
          ⟨mkInfo "div" [".toptext"] "" 100 20,
           [.text "An interesting HN text post."]⟩).get
        ⟨0, by decide⟩).textContent.length > 10) :=
  ⟨min_length_thresholds_amended.1 false genericTwoGroupDoc 0 (by decide),
   min_length_thresholds_amended.2.1 false redditSampleDoc 0 (by decide),
   min_length_thresholds_amended.2.2.1 false twitterSampleDoc 0 (by decide),
   min_length_thresholds_amended.2.2.2.1 false hnSampleDoc 0 (by decide),
   min_length_thresholds_amended.2.2.2.2 false hnSampleDoc
     ⟨mkInfo "div" [".toptext"] "" 100 20, [.text "An interesting HN text post."]⟩
     _ (List.get_mem _ _ _)⟩

/-! ## Claim C3: fallback selectors -/

/-- C3 (counterexample): the fallbacks are not "the same filtering".  A
visible ten-character `article` passes the primary Twitter filter
(visible, length above 5) yet the fallback pass admits nothing; and the
generic strategy does not fall back at all when its primary group matched
elements but produced zero items, even though the paragraph fallback
would have admitted a paragraph. -/
theorem fallback_filtering_differs :
    isElementVisible twitterShortArticleEl.info = true
    ∧ (extractTextFromElement twitterShortArticleEl).length > 5
    ∧ ((firstNonEmptyMatch twitterShortArticleDoc tweetSelectors).filterMap
        (twitterItemOf false)).length = 0
    ∧ (querySelectorAll twitterShortArticleDoc "article").length = 1
    ∧ (TwitterExtractor.extract false twitterShortArticleDoc).items.length = 0
    ∧ (GenericExtractor.extract false genericShortArticleDoc).items.length = 0
    ∧ (((querySelectorAll genericShortArticleDoc "p").filter
        (fun p => isElementVisible p.info && (extractTextFromElement p).length > 50)).filterMap
        (genericItemOf false)).length = 1 := by
  refine ⟨?_, ?_, ?_, ?_, ?_, ?_, ?_⟩ <;> decide

/-- C3 (amended): the generic strategy falls back to the `p` selector
exactly when no primary selector matched any element (not when zero items
were produced), filtering paragraphs by visibility and length above 50;
the Twitter strategy falls back to `article` exactly when zero primary
items were produced, filtering by visibility and length strictly between
20 and 2000 — thresholds that differ from its primary pass. -/
theorem fallback_behavior_amended :
    (∀ (inc : Bool) (d : Doc),
      (∀ sel ∈ genericContentSelectors, (querySelectorAll d sel).length = 0) →
      (GenericExtractor.extract inc d).items
        = ((querySelectorAll d "p").filter
            (fun p => isElementVisible p.info && (extractTextFromElement p).length > 50)).filterMap
          (genericItemOf inc))
    ∧ (∀ (inc : Bool) (d : Doc),
      ((firstNonEmptyMatch d tweetSelectors).filterMap (twitterItemOf inc)).length = 0 →
      (TwitterExtractor.extract inc d).items
        = (querySelectorAll d "article").filterMap (twitterFallbackItemOf inc))
    ∧ (∀ (inc : Bool) (e : Element) (it : ContentItem),
      twitterFallbackItemOf inc e = some it →
      isElementVisible e.info = true ∧ it.textContent.length > 20
        ∧ it.textContent.length < 2000)
    ∧ (∀ (inc : Bool) (e : Element) (it : ContentItem),
      genericItemOf inc e = some it → it.textContent.length > 20) := by
  refine ⟨?_, ?_, ?_, ?_⟩
  · intro inc d hall
    have hfm := firstNonEmptyMatch_of_empty d genericContentSelectors hall
    have hsh : (GenericExtractor.extract inc d).items
        = (if (firstNonEmptyMatch d genericContentSelectors).length = 0
            then (querySelectorAll d "p").filter
              (fun p => isElementVisible p.info && (extractTextFromElement p).length > 50)
            else firstNonEmptyMatch d genericContentSelectors).filterMap
          (genericItemOf inc) := rfl
    rw [hsh, hfm]
    simp
  · intro inc d h0
    have hsh : (TwitterExtractor.extract inc d).items
        = if ((firstNonEmptyMatch d tweetSelectors).filterMap (twitterItemOf inc)).length = 0
          then (querySelectorAll d "article").filterMap (twitterFallbackItemOf inc)
          else (firstNonEmptyMatch d tweetSelectors).filterMap (twitterItemOf inc) := rfl
    rw [hsh, if_pos h0]
  · intro inc e it h
    rcases twitterFallbackItemOf_sound _ _ _ h with ⟨hvis, _, _, h20, h2000⟩
    exact ⟨hvis, h20, h2000⟩
  · intro inc e it h
    exact (genericItemOf_sound _ _ _ h).2.2.2

/-- C3 (witness): the amended fallback behaviour at concrete pages and
elements. -/
theorem fallback_behavior_amended_check :
    ((GenericExtractor.extract false genericParagraphDoc).items
      = ((querySelectorAll genericParagraphDoc "p").filter
          (fun p => isElementVisible p.info && (extractTextFromElement p).length > 50)).filterMap
        (genericItemOf false))
    ∧ ((TwitterExtractor.extract false twitterShortArticleDoc).items
      = (querySelectorAll twitterShortArticleDoc "article").filterMap
        (twitterFallbackItemOf false))
    ∧ (isElementVisible twitterLongArticleEl.info = true
      ∧ twitterLongArticleItem.textContent.length > 20
      ∧ twitterLongArticleItem.textContent.length < 2000)
    ∧ genericArticleItem.textContent.length > 20 :=
  ⟨fallback_behavior_amended.1 false genericParagraphDoc (by decide),
   fallback_behavior_amended.2.1 false twitterShortArticleDoc (by decide),
   fallback_behavior_amended.2.2.1 false twitterLongArticleEl twitterLongArticleItem rfl,
   fallback_behavior_amended.2.2.2 false genericArticleEl genericArticleItem rfl⟩

/-! ## Claim C10: selector priority -/

/-- C10: for the generic and Twitter strategies, when an ordered selector
group is the first to match at least one element, exactly its matches feed
the item loop — later groups are ignored, and no union across groups is
taken (for Twitter, provided the group yields at least one item, since an
empty item list triggers the separate `article` fallback). -/
theorem selector_priority_first_match_wins :
    (∀ (inc : Bool) (d : Doc) (i : Nat) (h1 : i < genericContentSelectors.length),
      (∀ sel ∈ genericContentSelectors.take i, (querySelectorAll d sel).length = 0) →
      (querySelectorAll d (genericContentSelectors.get ⟨i, h1⟩)).length ≠ 0 →
      (GenericExtractor.extract inc d).items
        = (querySelectorAll d (genericContentSelectors.get ⟨i, h1⟩)).filterMap
          (genericItemOf inc))
    ∧ (∀ (inc : Bool) (d : Doc) (i : Nat) (h1 : i < tweetSelectors.length),
      (∀ sel ∈ tweetSelectors.take i, (querySelectorAll d sel).length = 0) →
      (querySelectorAll d (tweetSelectors.get ⟨i, h1⟩)).length ≠ 0 →
      ((querySelectorAll d (tweetSelectors.get ⟨i, h1⟩)).filterMap (twitterItemOf inc)).length ≠ 0 →
      (TwitterExtractor.extract inc d).items
        = (querySelectorAll d (tweetSelectors.get ⟨i, h1⟩)).filterMap (twitterItemOf inc)) := by
  constructor
  · intro inc d i h1 hpre hne
    have hfm := firstNonEmptyMatch_first d genericContentSelectors i h1 hpre hne
    have hsh : (GenericExtractor.extract inc d).items
        = (if (firstNonEmptyMatch d genericContentSelectors).length = 0
            then (querySelectorAll d "p").filter
              (fun p => isElementVisible p.info && (extractTextFromElement p).length > 50)
            else firstNonEmptyMatch d genericContentSelectors).filterMap
          (genericItemOf inc) := rfl
    rw [hsh, hfm, if_neg hne]
  · intro inc d i h1 hpre hne hitems
    have hfm := firstNonEmptyMatch_first d tweetSelectors i h1 hpre hne
    have hsh : (TwitterExtractor.extract inc d).items
        = if ((firstNonEmptyMatch d tweetSelectors).filterMap (twitterItemOf inc)).length = 0
          then (querySelectorAll d "article").filterMap (twitterFallbackItemOf inc)
          else (firstNonEmptyMatch d tweetSelectors).filterMap (twitterItemOf inc) := rfl
    rw [hsh, hfm, if_neg hitems]

/-- C10 (witness): on pages where the first and a later selector group
both match, the extractors take exactly the first group's matches. -/
theorem selector_priority_first_match_wins_check :
    ((GenericExtractor.extract false genericTwoGroupDoc).items
      = (querySelectorAll genericTwoGroupDoc
          (genericContentSelectors.get ⟨0, by decide⟩)).filterMap (genericItemOf false))
    ∧ ((TwitterExtractor.extract false twitterTwoGroupDoc).items
      = (querySelectorAll twitterTwoGroupDoc
          (tweetSelectors.get ⟨0, by decide⟩)).filterMap (twitterItemOf false)) :=
  ⟨selector_priority_first_match_wins.1 false genericTwoGroupDoc 0 (by decide)
      (by simp) (by decide),
   selector_priority_first_match_wins.2 false twitterTwoGroupDoc 0 (by decide)
      (by simp) (by decide) (by decide)⟩

/-! ## Lemmas on the space/tab collapse pass -/

lemma st_cases {c : Char} (h : isSpaceTab c = true) : c = ' ' ∨ c = '\t' := by
  simpa [isSpaceTab, Bool.or_eq_true, decide_eq_true_eq] using h

lemma st_space {c : Char} (h : isSpaceTab c = true) (ht : c ≠ '\t') : c = ' ' := by
  rcases st_cases h with rfl | rfl
  · rfl
  · exact absurd rfl ht

lemma not_st_ne_space {c : Char} (h : isSpaceTab c = false) : c ≠ ' ' := by
  intro h2
  subst h2
  simp [isSpaceTab] at h

lemma not_st_ne_tab {c : Char} (h : isSpaceTab c = false) : c ≠ '\t' := by
  intro h2
  subst h2
  simp [isSpaceTab] at h

lemma st_isJsWs {c : Char} (h : isSpaceTab c = true) : isJsWs c = true := by
  rcases st_cases h with rfl | rfl <;> decide

lemma not_ws_not_st {c : Char} (h : isJsWs c = false) : isSpaceTab c = false := by
  cases hst : isSpaceTab c
  · rfl
  · rw [st_isJsWs hst] at h
    cases h

lemma st_ne_nl {c : Char} (h : isSpaceTab c = true) : c ≠ '\n' := by
  rcases st_cases h with rfl | rfl <;> decide

lemma collapsedOk_head_ne_tab {d : Char} {r : List Char}
    (h : collapsedOk (d :: r) = true) : d ≠ '\t' := by
  cases r <;> simp only [collapsedOk, Bool.and_eq_true, bne_iff_ne, ne_eq] at h
  · exact h
  · exact h.1.1

lemma collapsedOk_tail {d : Char} {r : List Char}
    (h : collapsedOk (d :: r) = true) : collapsedOk r = true := by
  cases r <;> simp only [collapsedOk, Bool.and_eq_true] at h ⊢
  · exact h.2

lemma cst_cons2 (a e : Char) (m : List Char) :
    collapseSpaceTab (a :: e :: m)
      = if isSpaceTab a then
          (if isSpaceTab e then collapseSpaceTab (e :: m)
           else ' ' :: collapseSpaceTab (e :: m))
        else a :: collapseSpaceTab (e :: m) := rfl

lemma cst_head : ∀ (l : List Char) (d : Char),
    ∃ t, collapseSpaceTab (d :: l) = (if isSpaceTab d then ' ' else d) :: t := by
  intro l
  induction l with
  | nil =>
    intro d
    refine ⟨[], ?_⟩
    by_cases h : isSpaceTab d <;> simp [collapseSpaceTab, h]
  | cons e r ih =>
    intro d
    rcases ih e with ⟨t, ht⟩
    by_cases hd : isSpaceTab d <;> by_cases he : isSpaceTab e
    · exact ⟨t, by simp only [collapseSpaceTab, if_pos hd, if_pos he, ht, if_pos hd]⟩
    · exact ⟨collapseSpaceTab (e :: r), by simp only [collapseSpaceTab, if_pos hd, if_neg he]⟩
    · exact ⟨collapseSpaceTab (e :: r), by simp only [collapseSpaceTab, if_neg hd]⟩
    · exact ⟨collapseSpaceTab (e :: r), by simp only [collapseSpaceTab, if_neg hd]⟩

lemma cst_ne_nil {l : List Char} (h : l ≠ []) : collapseSpaceTab l ≠ [] := by
  match l, h with
  | d :: l, _ =>
    rcases cst_head l d with ⟨t, ht⟩
    rw [ht]
    exact List.cons_ne_nil _ _

lemma cst_head_eq {l : List Char} {d : Char} (h : isSpaceTab d = false) :
    ∃ t, collapseSpaceTab (d :: l) = d :: t := by
  rcases cst_head l d with ⟨t, ht⟩
  rw [if_neg (by simp [h])] at ht
  exact ⟨t, ht⟩

lemma cst_ok : ∀ l, collapsedOk (collapseSpaceTab l) = true
  | [] => rfl
  | [c] => by
    by_cases h : isSpaceTab c
    · simp only [collapseSpaceTab, if_pos h]
      decide
    · simp only [collapseSpaceTab, if_neg h, collapsedOk, bne_iff_ne, ne_eq,
        decide_eq_true_eq]
      exact not_st_ne_tab (by simpa using h)
  | c :: d :: r => by
    have ih := cst_ok (d :: r)
    by_cases hc : isSpaceTab c <;> by_cases hd : isSpaceTab d
    · simpa only [collapseSpaceTab, if_pos hc, if_pos hd] using ih
    · have hstep : collapseSpaceTab (c :: d :: r) = ' ' :: collapseSpaceTab (d :: r) := by
        simp only [collapseSpaceTab, if_pos hc, if_neg hd]
      rcases cst_head_eq (l := r) (by simpa using hd) with ⟨t, ht⟩
      rw [hstep, ht]
      rw [ht] at ih
      simp only [collapsedOk, Bool.and_eq_true, bne_iff_ne, ne_eq, Bool.not_eq_true']
      refine ⟨⟨by decide, ?_⟩, ih⟩
      simp [not_st_ne_space (by simpa using hd)]
    · have hstep : collapseSpaceTab (c :: d :: r) = c :: collapseSpaceTab (d :: r) := by
        simp only [collapseSpaceTab, if_neg hc]
      rcases cst_head r d with ⟨t, ht⟩
      rw [if_pos (by simpa using hd)] at ht
      rw [hstep, ht]
      rw [ht] at ih
      simp only [collapsedOk, Bool.and_eq_true, bne_iff_ne, ne_eq, Bool.not_eq_true']
      refine ⟨⟨not_st_ne_tab (by simpa using hc), ?_⟩, ih⟩
      simp [not_st_ne_space (by simpa using hc)]
    · have hstep : collapseSpaceTab (c :: d :: r) = c :: collapseSpaceTab (d :: r) := by
        simp only [collapseSpaceTab, if_neg hc]
      rcases cst_head_eq (l := r) (by simpa using hd) with ⟨t, ht⟩
      rw [hstep, ht]
      rw [ht] at ih
      simp only [collapsedOk, Bool.and_eq_true, bne_iff_ne, ne_eq, Bool.not_eq_true']
      refine ⟨⟨not_st_ne_tab (by simpa using hc), ?_⟩, ih⟩
      simp [not_st_ne_space (by simpa using hc)]

lemma cst_eq_self : ∀ l, collapsedOk l = true → collapseSpaceTab l = l
  | [], _ => rfl
  | [c], h => by
    have hct : c ≠ '\t' := collapsedOk_head_ne_tab h
    by_cases hst : isSpaceTab c
    · rw [st_space hst hct]
      simp [collapseSpaceTab]
    · simp [collapseSpaceTab, hst]
  | c :: d :: r, h => by
    simp only [collapsedOk, Bool.and_eq_true] at h
    obtain ⟨⟨h1, h2⟩, h3⟩ := h
    have ih := cst_eq_self (d :: r) h3
    by_cases hc : isSpaceTab c
    · have hcsp : c = ' ' := st_space hc (by simpa [bne_iff_ne] using h1)
      have hdst : isSpaceTab d = false := by
        cases hdst : isSpaceTab d
        · rfl
        · have hdt : d ≠ '\t' := collapsedOk_head_ne_tab h3
          have hdsp : d = ' ' := st_space hdst hdt
          rw [hcsp, hdsp] at h2
          simp at h2
      have hstep : collapseSpaceTab (c :: d :: r) = ' ' :: collapseSpaceTab (d :: r) := by
        rw [cst_cons2, if_pos hc, if_neg (by simp [hdst])]
      rw [hstep, ih, hcsp]
    · rw [cst_cons2, if_neg hc, ih]

lemma cst_append : ∀ (as : List Char) (c : Char), isSpaceTab c = false → ∀ (y : List Char),
    collapseSpaceTab (as ++ c :: y) = collapseSpaceTab (as ++ [c]) ++ collapseSpaceTab y
  | [], c, hc, y => by
    cases y with
    | nil => simp [collapseSpaceTab, hc]
    | cons e r => simp [collapseSpaceTab, hc]
  | [a], c, hc, y => by
    cases y with
    | nil => simp [collapseSpaceTab]
    | cons e r =>
      by_cases ha : isSpaceTab a <;>
        simp [collapseSpaceTab, ha, hc]
  | a :: e :: as, c, hc, y => by
    have ih := cst_append (e :: as) c hc y
    simp only [List.cons_append] at ih
    rw [show (a :: e :: as) ++ c :: y = a :: e :: (as ++ c :: y) from rfl,
        show (a :: e :: as) ++ [c] = a :: e :: (as ++ [c]) from rfl,
        cst_cons2, cst_cons2]
    by_cases ha : isSpaceTab a <;> by_cases he : isSpaceTab e <;>
      simp [ha, he, ih]

lemma cst_last : ∀ (as : List Char) (c : Char), isSpaceTab c = false →
    ∃ z, collapseSpaceTab (as ++ [c]) = z ++ [c]
  | [], c, hc => ⟨[], by simp [collapseSpaceTab, hc]⟩
  | [a], c, hc => by
    by_cases ha : isSpaceTab a
    · exact ⟨[' '], by simp [collapseSpaceTab, ha, hc]⟩
    · exact ⟨[a], by simp [collapseSpaceTab, ha, hc]⟩
  | a :: e :: as, c, hc => by
    rcases cst_last (e :: as) c hc with ⟨z, hz⟩
    simp only [List.cons_append] at hz
    by_cases ha : isSpaceTab a <;> by_cases he : isSpaceTab e
    · exact ⟨z, by simpa [collapseSpaceTab, ha, he] using hz⟩
    · exact ⟨' ' :: z, by simp [collapseSpaceTab, ha, he, hz]⟩
    · exact ⟨a :: z, by simp [collapseSpaceTab, ha, he, hz]⟩
    · exact ⟨a :: z, by simp [collapseSpaceTab, ha, he, hz]⟩

lemma cst_count_nl : ∀ l, (collapseSpaceTab l).count '\n' = l.count '\n'
  | [] => rfl
  | [c] => by
    by_cases h : isSpaceTab c
    · have h1 : c ≠ '\n' := st_ne_nl h
      simp [collapseSpaceTab, h, List.count_cons, h1.symm]
    · simp [collapseSpaceTab, h]
  | c :: d :: r => by
    have ih := cst_count_nl (d :: r)
    by_cases hc : isSpaceTab c <;> by_cases hd : isSpaceTab d
    · have h1 : c ≠ '\n' := st_ne_nl hc
      simp [collapseSpaceTab, hc, hd, ih, List.count_cons, h1.symm]
    · have h1 : c ≠ '\n' := st_ne_nl hc
      simp [collapseSpaceTab, hc, hd, ih, List.count_cons, h1.symm]
    · simp [collapseSpaceTab, hc, ih, List.count_cons]
    · simp [collapseSpaceTab, hc, ih, List.count_cons]

lemma cst_allWs : ∀ l, (∀ c ∈ l, isJsWs c = true) →
    ∀ c ∈ collapseSpaceTab l, isJsWs c = true
  | [], _, c, hc => absurd hc (List.not_mem_nil c)
  | [d], h, c, hc => by
    by_cases hd : isSpaceTab d
    · rw [show collapseSpaceTab [d] = [' '] from by simp [collapseSpaceTab, hd]] at hc
      rcases List.mem_singleton.mp hc with rfl
      decide
    · rw [show collapseSpaceTab [d] = [d] from by simp [collapseSpaceTab, hd]] at hc
      rcases List.mem_singleton.mp hc with rfl
      exact h c (by simp)
  | d :: e :: r, h, c, hc => by
    have htail : ∀ x ∈ (e :: r), isJsWs x = true := fun x hx => h x (by simp [hx])
    by_cases hd : isSpaceTab d <;> by_cases he : isSpaceTab e
    · rw [show collapseSpaceTab (d :: e :: r) = collapseSpaceTab (e :: r) from by
        simp [collapseSpaceTab, hd, he]] at hc
      exact cst_allWs (e :: r) htail c hc
    · rw [show collapseSpaceTab (d :: e :: r) = ' ' :: collapseSpaceTab (e :: r) from by
        simp [collapseSpaceTab, hd, he]] at hc
      rcases List.mem_cons.mp hc with rfl | hc2
      · decide
      · exact cst_allWs (e :: r) htail c hc2
    · rw [show collapseSpaceTab (d :: e :: r) = d :: collapseSpaceTab (e :: r) from by
        simp [collapseSpaceTab, hd]] at hc
      rcases List.mem_cons.mp hc with rfl | hc2
      · exact h c (by simp)
      · exact cst_allWs (e :: r) htail c hc2
    · rw [show collapseSpaceTab (d :: e :: r) = d :: collapseSpaceTab (e :: r) from by
        simp [collapseSpaceTab, hd]] at hc
      rcases List.mem_cons.mp hc with rfl | hc2
      · exact h c (by simp)
      · exact cst_allWs (e :: r) htail c hc2

/-! ## Lemmas on whitespace runs and the newline pass -/

lemma nl_isJsWs : isJsWs '\n' = true := by decide

lemma wsNlIdx_none_iff : ∀ l, wsNlIdx l = none ↔ runHasNl l = false := by
  intro l
  induction l with
  | nil => simp [wsNlIdx, runHasNl]
  | cons c r ih =>
    simp only [wsNlIdx, runHasNl]
    by_cases hw : isJsWs c
    · rw [if_pos hw, if_pos hw]
      cases hx : wsNlIdx r with
      | some k =>
        have hr : runHasNl r = true := by
          cases hrr : runHasNl r
          · exact absurd hx (by simp [ih.mpr hrr])
          · rfl
        simp [hr]
      | none =>
        have hr : runHasNl r = false := ih.mp hx
        by_cases hc : c = '\n' <;> simp [hc, hr]
    · rw [if_neg hw, if_neg hw]
      simp

lemma wsNlIdx_get : ∀ (l : List Char) (k : Nat), wsNlIdx l = some k →
    l.get? k = some '\n' ∧ k < l.length := by
  intro l
  induction l with
  | nil => intro k h; cases h
  | cons c r ih =>
    intro k h
    simp only [wsNlIdx] at h
    by_cases hw : isJsWs c
    · rw [if_pos hw] at h
      cases hx : wsNlIdx r with
      | some j =>
        rw [hx] at h
        have hk : k = j + 1 := by
          injection h with h2
          omega
        subst hk
        rcases ih j hx with ⟨hg, hlt⟩
        exact ⟨hg, by simpa using hlt⟩
      | none =>
        rw [hx] at h
        by_cases hc : c = '\n'
        · rw [if_pos hc] at h
          have hk : k = 0 := by
            injection h with h2
            omega
          subst hk
          exact ⟨by simp [hc], by simp⟩
        · rw [if_neg hc] at h
          cases h
    · rw [if_neg hw] at h
      cases h

lemma runHasNl_decomp : ∀ l, runHasNl l = false →
    ∃ w t, l = w ++ t ∧ allWsNoNl w = true ∧ headNonWs t = true := by
  intro l
  induction l with
  | nil => exact fun _ => ⟨[], [], rfl, rfl, rfl⟩
  | cons c r ih =>
    intro h
    simp only [runHasNl] at h
    by_cases hw : isJsWs c
    · rw [if_pos hw] at h
      simp only [Bool.or_eq_false_iff] at h
      rcases ih h.2 with ⟨w, t, hl, hw2, ht⟩
      refine ⟨c :: w, t, by rw [hl, List.cons_append], ?_, ht⟩
      simp only [allWsNoNl, List.all_cons, Bool.and_eq_true] at hw2 ⊢
      exact ⟨⟨hw, by simpa using h.1⟩, hw2⟩
    · exact ⟨[], c :: r, rfl, rfl, by simpa [headNonWs] using hw⟩

lemma runHasNl_append_none {w t : List Char} (hw : allWsNoNl w = true)
    (ht : headNonWs t = true) : runHasNl (w ++ t) = false := by
  induction w with
  | nil =>
    cases t with
    | nil => rfl
    | cons c t2 =>
      simp only [headNonWs, Bool.not_eq_true'] at ht
      simp [runHasNl, ht]
  | cons a w2 ih =>
    simp only [allWsNoNl, List.all_cons, Bool.and_eq_true, bne_iff_ne, ne_eq] at hw
    have := ih (by simp [allWsNoNl, hw.2])
    simp [runHasNl, hw.1.1, this, bne_iff_ne]
    simpa using hw.1.2

lemma runHasNl_append_mono : ∀ (x y : List Char), runHasNl x = true →
    runHasNl (x ++ y) = true := by
  intro x y
  induction x with
  | nil => intro h; cases h
  | cons c r ih =>
    intro h
    simp only [runHasNl] at h ⊢
    by_cases hw : isJsWs c
    · rw [if_pos hw] at h ⊢
      rcases Bool.or_eq_true_iff.mp h with h1 | h2
      · simp [h1]
      · simp [ih h2]
    · rw [if_neg hw] at h
      cases h

lemma wsNlIdx_cons (c : Char) (r : List Char) :
    wsNlIdx (c :: r)
      = if isJsWs c then
          (match wsNlIdx r with
           | some k => some (k + 1)
           | none => if c = '\n' then some 0 else none)
        else none := rfl

lemma wsNlIdx_append_mono : ∀ (x y : List Char) (k : Nat), wsNlIdx x = some k →
    ∃ j, k ≤ j ∧ wsNlIdx (x ++ y) = some j := by
  intro x y
  induction x with
  | nil => intro k h; cases h
  | cons c r ih =>
    intro k h
    rw [wsNlIdx_cons] at h
    rw [List.cons_append, wsNlIdx_cons]
    by_cases hw : isJsWs c
    · rw [if_pos hw] at h ⊢
      cases hx : wsNlIdx r with
      | some j =>
        rw [hx] at h
        rcases ih j hx with ⟨j2, hj2, hx2⟩
        rw [hx2]
        injection h with h2
        exact ⟨j2 + 1, by omega, rfl⟩
      | none =>
        rw [hx] at h
        by_cases hc : c = '\n'
        · rw [if_pos hc] at h
          injection h with h2
          cases hx2 : wsNlIdx (r ++ y) with
          | some j2 => exact ⟨j2 + 1, by omega, rfl⟩
          | none =>
            refine ⟨0, by omega, ?_⟩
            show (if c = '\n' then some 0 else none) = some 0
            rw [if_pos hc]
        · rw [if_neg hc] at h
          cases h
    · rw [if_neg hw] at h
      cases h

lemma wsNlIdx_append_last {c : Char} (hc : isJsWs c = false) :
    ∀ (as y : List Char), wsNlIdx (as ++ c :: y) = wsNlIdx (as ++ [c]) := by
  intro as y
  induction as with
  | nil => simp [wsNlIdx, hc]
  | cons a r ih =>
    rw [List.cons_append, List.cons_append, wsNlIdx_cons, wsNlIdx_cons, ih]

/-! ## Unfolding and congruence for `normNewlines` -/

lemma normF_cons (fuel : Nat) (c : Char) (r : List Char) :
    normNewlinesF (fuel + 1) (c :: r)
      = if c = '\n' then
          match wsNlIdx r with
          | some k => '\n' :: '\n' :: normNewlinesF fuel (r.drop (k + 1))
          | none => c :: normNewlinesF fuel r
        else c :: normNewlinesF fuel r := rfl

lemma normNewlinesF_congr : ∀ (f1 f2 : Nat) (l : List Char),
    l.length ≤ f1 → l.length ≤ f2 → normNewlinesF f1 l = normNewlinesF f2 l := by
  intro f1
  induction f1 with
  | zero =>
    intro f2 l h1 _
    have hl : l = [] := List.length_eq_zero.mp (Nat.le_zero.mp h1)
    subst hl
    cases f2 <;> rfl
  | succ g ih =>
    intro f2 l h1 h2
    cases l with
    | nil => cases f2 <;> rfl
    | cons c r =>
      cases f2 with
      | zero => simp at h2
      | succ g2 =>
        rw [normF_cons, normF_cons]
        by_cases hc : c = '\n'
        · rw [if_pos hc, if_pos hc]
          rcases hw : wsNlIdx r with _ | k
        -- none
          · simp only
            rw [ih g2 r (by simpa using h1) (by simpa using h2)]
          · simp only
            have hd1 : (r.drop (k + 1)).length ≤ g := by
              rw [List.length_drop]
              simp only [List.length_cons] at h1
              omega
            have hd2 : (r.drop (k + 1)).length ≤ g2 := by
              rw [List.length_drop]
              simp only [List.length_cons] at h2
              omega
            rw [ih g2 _ hd1 hd2]
        · rw [if_neg hc, if_neg hc,
            ih g2 r (by simpa using h1) (by simpa using h2)]

lemma normNewlines_cons (c : Char) (r : List Char) :
    normNewlines (c :: r)
      = if c = '\n' then
          match wsNlIdx r with
          | some k => '\n' :: '\n' :: normNewlines (r.drop (k + 1))
          | none => c :: normNewlines r
        else c :: normNewlines r := by
  show normNewlinesF (r.length + 1) (c :: r) = _
  rw [normF_cons]
  by_cases hc : c = '\n'
  · rw [if_pos hc, if_pos hc]
    rcases hw : wsNlIdx r with _ | k
    · rfl
    · simp only
      have := normNewlinesF_congr r.length (r.drop (k + 1)).length (r.drop (k + 1))
        (by rw [List.length_drop]; omega) le_rfl
      rw [this]
      rfl
  · rw [if_neg hc, if_neg hc]
    rfl

lemma normNewlines_cons_nonNl {c : Char} (hc : c ≠ '\n') (r : List Char) :
    normNewlines (c :: r) = c :: normNewlines r := by
  rw [normNewlines_cons, if_neg hc]

/-! ## Structural lemmas on `normNewlines` output -/

lemma nlCond_nil : nlCond [] = true := by decide

lemma nlCond_cons_nl (r2 : List Char) : nlCond ('\n' :: r2) = !runHasNl r2 := rfl

lemma nlCond_cons_other {x : Char} (hx : x ≠ '\n') (r2 : List Char) :
    nlCond (x :: r2) = !runHasNl (x :: r2) := by
  unfold nlCond
  split
  next heq => cases heq; exact absurd rfl hx
  next => rfl

lemma nlCond_of_no_run {l : List Char} (h : runHasNl l = false) : nlCond l = true := by
  cases l with
  | nil => exact nlCond_nil
  | cons x xs =>
    by_cases hx : x = '\n'
    · subst hx
      rw [runHasNl, if_pos nl_isJsWs] at h
      simp at h
    · rw [nlCond_cons_other hx, h]
      rfl

lemma nlOk_tail {c : Char} {r : List Char} (h : nlOk (c :: r) = true) : nlOk r = true := by
  simp only [nlOk, Bool.and_eq_true] at h
  exact h.2

lemma nlOk_cons_of {c : Char} {r : List Char}
    (hcond : c = '\n' → nlCond r = true) (htail : nlOk r = true) :
    nlOk (c :: r) = true := by
  simp only [nlOk, Bool.and_eq_true]
  refine ⟨?_, htail⟩
  by_cases hc : c = '\n'
  · rw [if_pos hc]
    exact hcond hc
  · rw [if_neg hc]

lemma nlOk_cons_cond {c : Char} {r : List Char} (hc : c = '\n')
    (h : nlOk (c :: r) = true) : nlCond r = true := by
  simp only [nlOk, Bool.and_eq_true, if_pos hc] at h
  exact h.1

lemma norm_head : ∀ l : List Char, (normNewlines l).head? = l.head? := by
  intro l
  cases l with
  | nil => rfl
  | cons c r =>
    rw [normNewlines_cons]
    by_cases hc : c = '\n'
    · rw [if_pos hc]
      rcases hw : wsNlIdx r with _ | k <;> simp [hc]
    · rw [if_neg hc]
      simp

lemma headNonWs_norm {t : List Char} (h : headNonWs t = true) :
    headNonWs (normNewlines t) = true := by
  cases t with
  | nil => rfl
  | cons x t2 =>
    have hh := norm_head (x :: t2)
    cases hn : normNewlines (x :: t2) with
    | nil => rfl
    | cons y ys =>
      rw [hn] at hh
      simp only [List.head?_cons, Option.some.injEq] at hh
      subst hh
      exact h

lemma norm_ws_front : ∀ (w t : List Char), allWsNoNl w = true →
    normNewlines (w ++ t) = w ++ normNewlines t := by
  intro w
  induction w with
  | nil => intro t _; rfl
  | cons a w2 ih =>
    intro t hw
    simp only [allWsNoNl, List.all_cons, Bool.and_eq_true, bne_iff_ne, ne_eq] at hw
    rw [List.cons_append, normNewlines_cons_nonNl hw.1.2,
      ih t (by simp [allWsNoNl, hw.2]), List.cons_append]

lemma runHasNl_norm_of_none {r : List Char} (h : runHasNl r = false) :
    runHasNl (normNewlines r) = false := by
  rcases runHasNl_decomp r h with ⟨w, t, rfl, hw, ht⟩
  rw [norm_ws_front w t hw]
  exact runHasNl_append_none hw (headNonWs_norm ht)

lemma nlOk_of_norm_parts {m : List Char} (h : runHasNl m = false)
    (hok : nlOk (normNewlines m) = true) : nlOk ('\n' :: normNewlines m) = true := by
  refine nlOk_cons_of (fun _ => ?_) hok
  exact nlCond_of_no_run (runHasNl_norm_of_none h)

lemma norm_eq_self_aux : ∀ (n : Nat) (l : List Char), l.length ≤ n → nlOk l = true →
    normNewlines l = l := by
  intro n
  induction n with
  | zero =>
    intro l h _
    have hl : l = [] := List.length_eq_zero.mp (Nat.le_zero.mp h)
    subst hl
    rfl
  | succ m ih =>
    intro l hlen hok
    cases l with
    | nil => rfl
    | cons c r =>
      have htail : nlOk r = true := nlOk_tail hok
      by_cases hc : c = '\n'
      · subst hc
        have hcond : nlCond r = true := nlOk_cons_cond rfl hok
        cases r with
        | nil => rfl
        | cons d r2 =>
          by_cases hd : d = '\n'
          · subst hd
            rw [nlCond_cons_nl] at hcond
            have hrun : runHasNl r2 = false := by simpa using hcond
            have hidx : wsNlIdx ('\n' :: r2) = some 0 := by
              rw [wsNlIdx_cons, if_pos nl_isJsWs,
                (wsNlIdx_none_iff r2).mpr hrun]
              rfl
            rw [normNewlines_cons, if_pos rfl, hidx]
            have hr2 : normNewlines r2 = r2 :=
              ih r2 (by simp at hlen; omega) (nlOk_tail htail)
            simp [hr2]
          · rw [nlCond_cons_other hd] at hcond
            have hrun : runHasNl (d :: r2) = false := by simpa using hcond
            have hidx : wsNlIdx (d :: r2) = none := (wsNlIdx_none_iff _).mpr hrun
            have hlen2 : (d :: r2).length ≤ m := by
              simp only [List.length_cons] at hlen ⊢
              omega
            rw [normNewlines_cons, if_pos rfl, hidx]
            simp [ih (d :: r2) hlen2 htail]
      · rw [normNewlines_cons_nonNl hc,
          ih r (by simp at hlen; omega) htail]

lemma norm_eq_self {l : List Char} (h : nlOk l = true) : normNewlines l = l :=
  norm_eq_self_aux l.length l le_rfl h

lemma wsNlIdx_drop_decomp : ∀ (l : List Char) (k : Nat), wsNlIdx l = some k →
    ∃ w t, l.drop (k + 1) = w ++ t ∧ allWsNoNl w = true ∧ headNonWs t = true := by
  intro l
  induction l with
  | nil => intro k h; cases h
  | cons c r ih =>
    intro k h
    rw [wsNlIdx_cons] at h
    by_cases hws : isJsWs c
    · rw [if_pos hws] at h
      cases hx : wsNlIdx r with
      | some j =>
        rw [hx] at h
        injection h with h2
        have hk : k = j + 1 := h2.symm
        subst hk
        simpa using ih j hx
      | none =>
        rw [hx] at h
        by_cases hc : c = '\n'
        · rw [if_pos hc] at h
          injection h with h2
          have hk : k = 0 := h2.symm
          subst hk
          have hrun : runHasNl r = false := (wsNlIdx_none_iff r).mp hx
          simpa using runHasNl_decomp r hrun
        · rw [if_neg hc] at h
          cases h
    · rw [if_neg hws] at h
      cases h

lemma norm_ok_aux : ∀ (n : Nat) (l : List Char), l.length ≤ n →
    nlOk (normNewlines l) = true := by
  intro n
  induction n with
  | zero =>
    intro l h
    have hl : l = [] := List.length_eq_zero.mp (Nat.le_zero.mp h)
    subst hl
    rfl
  | succ m ih =>
    intro l hlen
    cases l with
    | nil => rfl
    | cons c r =>
      by_cases hc : c = '\n'
      · rw [normNewlines_cons, if_pos hc]
        rcases hw : wsNlIdx r with _ | k
        · simp only
          have hrun : runHasNl r = false := (wsNlIdx_none_iff r).mp hw
          have hok : nlOk (normNewlines r) = true := ih r (by simp at hlen; omega)
          subst hc
          exact nlOk_of_norm_parts hrun hok
        · simp only
          rcases wsNlIdx_drop_decomp r k hw with ⟨w, t, hdec, hwns, hth⟩
          have hdrop : runHasNl (r.drop (k + 1)) = false := by
            rw [hdec]
            exact runHasNl_append_none hwns hth
          have hrunO : runHasNl (normNewlines (r.drop (k + 1))) = false :=
            runHasNl_norm_of_none hdrop
          have hokO : nlOk (normNewlines (r.drop (k + 1))) = true := by
            refine ih (r.drop (k + 1)) ?_
            rw [List.length_drop]
            simp only [List.length_cons] at hlen
            omega
          have hinner : nlOk ('\n' :: normNewlines (r.drop (k + 1))) = true :=
            nlOk_cons_of (fun _ => nlCond_of_no_run hrunO) hokO
          refine nlOk_cons_of (fun _ => ?_) hinner
          rw [nlCond_cons_nl, hrunO]
          rfl
      · rw [normNewlines_cons_nonNl hc]
        refine nlOk_cons_of (fun h2 => absurd h2 hc) (ih r (by simp at hlen; omega))

lemma norm_ok (l : List Char) : nlOk (normNewlines l) = true :=
  norm_ok_aux l.length l le_rfl

lemma norm_last_aux (c : Char) (hc : isJsWs c = false) :
    ∀ (n : Nat) (as : List Char), as.length ≤ n →
      ∃ z, normNewlines (as ++ [c]) = z ++ [c] := by
  have hcn : c ≠ '\n' := fun h2 => by
    subst h2
    rw [nl_isJsWs] at hc
    cases hc
  intro n
  induction n with
  | zero =>
    intro as h
    have hl : as = [] := List.length_eq_zero.mp (Nat.le_zero.mp h)
    subst hl
    exact ⟨[], by rw [List.nil_append, normNewlines_cons_nonNl hcn]; rfl⟩
  | succ m ih =>
    intro as hlen
    cases as with
    | nil => exact ⟨[], by rw [List.nil_append, normNewlines_cons_nonNl hcn]; rfl⟩
    | cons a as2 =>
      by_cases ha : a = '\n'
      · rcases hw : wsNlIdx (as2 ++ [c]) with _ | k
        · have hstep : normNewlines ((a :: as2) ++ [c]) = a :: normNewlines (as2 ++ [c]) := by
            rw [List.cons_append, normNewlines_cons, if_pos ha, hw]
          rcases ih as2 (by simpa using hlen) with ⟨z, hz⟩
          exact ⟨a :: z, by rw [hstep, hz, List.cons_append]⟩
        · have hk := wsNlIdx_get _ _ hw
          have hklt : k < as2.length := by
            rcases Nat.lt_or_ge k as2.length with h' | h'
            · exact h'
            · exfalso
              have hkeq : k = as2.length := by
                have h2 := hk.2
                rw [List.length_append, List.length_singleton] at h2
                omega
              have hgc : (as2 ++ [c]).get? k = some c := by
                rw [hkeq, List.get?_append_right le_rfl]
                simp
              rw [hgc] at hk
              have : c = '\n' := by
                injection hk.1
              exact hcn this
          have hdrop : (as2 ++ [c]).drop (k + 1) = as2.drop (k + 1) ++ [c] :=
            List.drop_append_of_le_length (by omega)
          have hstep : normNewlines ((a :: as2) ++ [c])
              = '\n' :: '\n' :: normNewlines ((as2 ++ [c]).drop (k + 1)) := by
            rw [List.cons_append, normNewlines_cons, if_pos ha, hw]
          rw [hdrop] at hstep
          have hlen2 : (as2.drop (k + 1)).length ≤ m := by
            rw [List.length_drop]
            simp only [List.length_cons] at hlen
            omega
          rcases ih (as2.drop (k + 1)) hlen2 with ⟨z, hz⟩
          exact ⟨'\n' :: '\n' :: z, by rw [hstep, hz]; simp⟩
      · have hstep : normNewlines ((a :: as2) ++ [c]) = a :: normNewlines (as2 ++ [c]) := by
          rw [List.cons_append, normNewlines_cons_nonNl ha]
        rcases ih as2 (by simpa using hlen) with ⟨z, hz⟩
        exact ⟨a :: z, by rw [hstep, hz, List.cons_append]⟩

lemma norm_last {c : Char} (hc : isJsWs c = false) (as : List Char) :
    ∃ z, normNewlines (as ++ [c]) = z ++ [c] :=
  norm_last_aux c hc as.length as le_rfl

lemma norm_append_aux (c : Char) (hc : isJsWs c = false) :
    ∀ (n : Nat) (as : List Char), as.length ≤ n → ∀ (y : List Char),
      normNewlines ((as ++ [c]) ++ y) = normNewlines (as ++ [c]) ++ normNewlines y := by
  have hcn : c ≠ '\n' := fun h2 => by
    subst h2
    rw [nl_isJsWs] at hc
    cases hc
  intro n
  induction n with
  | zero =>
    intro as h y
    have hl : as = [] := List.length_eq_zero.mp (Nat.le_zero.mp h)
    subst hl
    rw [List.nil_append, List.singleton_append, normNewlines_cons_nonNl hcn,
      normNewlines_cons_nonNl hcn]
    rfl
  | succ m ih =>
    intro as hlen y
    cases as with
    | nil =>
      rw [List.nil_append, List.singleton_append, normNewlines_cons_nonNl hcn,
        normNewlines_cons_nonNl hcn]
      rfl
    | cons a as2 =>
      have hrw : ((a :: as2) ++ [c]) ++ y = a :: ((as2 ++ [c]) ++ y) := by simp
      have hidx : wsNlIdx ((as2 ++ [c]) ++ y) = wsNlIdx (as2 ++ [c]) := by
        rw [List.append_assoc, List.singleton_append]
        exact wsNlIdx_append_last hc as2 y
      by_cases ha : a = '\n'
      · rcases hw : wsNlIdx (as2 ++ [c]) with _ | k
        · have hstepL : normNewlines (((a :: as2) ++ [c]) ++ y)
              = a :: normNewlines ((as2 ++ [c]) ++ y) := by
            rw [hrw, normNewlines_cons, if_pos ha, hidx, hw]
          have hstepR : normNewlines ((a :: as2) ++ [c]) = a :: normNewlines (as2 ++ [c]) := by
            rw [List.cons_append, normNewlines_cons, if_pos ha, hw]
          rw [hstepL, hstepR, ih as2 (by simpa using hlen) y, List.cons_append]
        · have hk := wsNlIdx_get _ _ hw
          have hklt : k < as2.length := by
            rcases Nat.lt_or_ge k as2.length with h' | h'
            · exact h'
            · exfalso
              have hkeq : k = as2.length := by
                have h2 := hk.2
                rw [List.length_append, List.length_singleton] at h2
                omega
              have hgc : (as2 ++ [c]).get? k = some c := by
                rw [hkeq, List.get?_append_right le_rfl]
                simp
              rw [hgc] at hk
              have : c = '\n' := by
                injection hk.1
              exact hcn this
          have hdrop1 : ((as2 ++ [c]) ++ y).drop (k + 1) = (as2.drop (k + 1) ++ [c]) ++ y := by
            rw [List.drop_append_of_le_length (by rw [List.length_append]; omega),
              List.drop_append_of_le_length (by omega)]
          have hdrop2 : (as2 ++ [c]).drop (k + 1) = as2.drop (k + 1) ++ [c] :=
            List.drop_append_of_le_length (by omega)
          have hstepL : normNewlines (((a :: as2) ++ [c]) ++ y)
              = '\n' :: '\n' :: normNewlines (((as2 ++ [c]) ++ y).drop (k + 1)) := by
            rw [hrw, normNewlines_cons, if_pos ha, hidx, hw]
          rw [hdrop1] at hstepL
          have hstepR : normNewlines ((a :: as2) ++ [c])
              = '\n' :: '\n' :: normNewlines ((as2 ++ [c]).drop (k + 1)) := by
            rw [List.cons_append, normNewlines_cons, if_pos ha, hw]
          rw [hdrop2] at hstepR
          have hlen2 : (as2.drop (k + 1)).length ≤ m := by
            rw [List.length_drop]
            simp only [List.length_cons] at hlen
            omega
          rw [hstepL, hstepR, ih (as2.drop (k + 1)) hlen2 y]
          simp
      · have hstepL : normNewlines (((a :: as2) ++ [c]) ++ y)
            = a :: normNewlines ((as2 ++ [c]) ++ y) := by
          rw [hrw, normNewlines_cons_nonNl ha]
        have hstepR : normNewlines ((a :: as2) ++ [c]) = a :: normNewlines (as2 ++ [c]) := by
          rw [List.cons_append, normNewlines_cons_nonNl ha]
        rw [hstepL, hstepR, ih as2 (by simpa using hlen) y, List.cons_append]

lemma norm_append {c : Char} (hc : isJsWs c = false) (as y : List Char) :
    normNewlines ((as ++ [c]) ++ y) = normNewlines (as ++ [c]) ++ normNewlines y :=
  norm_append_aux c hc as.length as le_rfl y

lemma norm_mem_aux : ∀ (n : Nat) (l : List Char), l.length ≤ n →
    ∀ c ∈ normNewlines l, c ∈ l ∨ c = '\n' := by
  intro n
  induction n with
  | zero =>
    intro l h c hc
    have hl : l = [] := List.length_eq_zero.mp (Nat.le_zero.mp h)
    subst hl
    exact absurd hc (List.not_mem_nil c)
  | succ m ih =>
    intro l hlen c hc
    cases l with
    | nil => exact absurd hc (List.not_mem_nil c)
    | cons a r =>
      by_cases ha : a = '\n'
      · rw [normNewlines_cons, if_pos ha] at hc
        rcases hw : wsNlIdx r with _ | k <;> rw [hw] at hc
        · simp only at hc
          rcases List.mem_cons.mp hc with rfl | hc2
          · exact Or.inl (by simp)
          · rcases ih r (by simpa using hlen) c hc2 with h2 | h2
            · exact Or.inl (by simp [h2])
            · exact Or.inr h2
        · simp only at hc
          rcases List.mem_cons.mp hc with rfl | hc2
          · exact Or.inr rfl
          · rcases List.mem_cons.mp hc2 with rfl | hc3
            · exact Or.inr rfl
            · have hlen2 : (r.drop (k + 1)).length ≤ m := by
                rw [List.length_drop]
                simp only [List.length_cons] at hlen
                omega
              rcases ih (r.drop (k + 1)) hlen2 c hc3 with h2 | h2
              · exact Or.inl (by simp [List.mem_of_mem_drop h2])
              · exact Or.inr h2
      · rw [normNewlines_cons_nonNl ha] at hc
        rcases List.mem_cons.mp hc with rfl | hc2
        · exact Or.inl (by simp)
        · rcases ih r (by simpa using hlen) c hc2 with h2 | h2
          · exact Or.inl (by simp [h2])
          · exact Or.inr h2

lemma norm_allWs {l : List Char} (h : ∀ c ∈ l, isJsWs c = true) :
    ∀ c ∈ normNewlines l, isJsWs c = true := by
  intro c hc
  rcases norm_mem_aux l.length l le_rfl c hc with h2 | h2
  · exact h c h2
  · subst h2
    exact nl_isJsWs

/-! ## `collapsedOk` preservation and stability -/

lemma collapsedOk_cons_iff (c : Char) (m : List Char) :
    collapsedOk (c :: m) = true
      ↔ (c ≠ '\t' ∧ (∀ d, m.head? = some d → ¬(c = ' ' ∧ d = ' '))
          ∧ collapsedOk m = true) := by
  cases m with
  | nil =>
    simp only [collapsedOk, bne_iff_ne, ne_eq, List.head?_nil]
    constructor
    · intro h
      exact ⟨h, fun d hd => absurd hd (by simp), trivial⟩
    · intro h
      exact h.1
  | cons d m2 =>
    simp only [collapsedOk, Bool.and_eq_true, bne_iff_ne, ne_eq, List.head?_cons,
      Option.some.injEq, Bool.not_eq_true', Bool.and_eq_false_iff, beq_eq_false_iff_ne]
    constructor
    · rintro ⟨⟨h1, h2⟩, h3⟩
      refine ⟨h1, ?_, h3⟩
      rintro e rfl ⟨rfl, rfl⟩
      rcases h2 with h2 | h2 <;> exact h2 rfl
    · rintro ⟨h1, h2, h3⟩
      refine ⟨⟨h1, ?_⟩, h3⟩
      by_cases hc : c = ' '
      · subst hc
        by_cases hd : d = ' '
        · exact absurd ⟨rfl, hd⟩ (h2 d rfl)
        · exact Or.inr hd
      · exact Or.inl hc

lemma collapsedOk_drop : ∀ (nn : Nat) (l : List Char), collapsedOk l = true →
    collapsedOk (l.drop nn) = true := by
  intro nn
  induction nn with
  | zero => intro l h; simpa using h
  | succ p ih =>
    intro l h
    cases l with
    | nil => rfl
    | cons c r => exact ih r (collapsedOk_tail h)

lemma collapsedOk_append_left : ∀ (x y : List Char),
    collapsedOk (x ++ y) = true → collapsedOk x = true
  | [], _, _ => rfl
  | [c], y, h => by
    have h1 : c ≠ '\t' := collapsedOk_head_ne_tab (by simpa using h)
    simpa [collapsedOk, bne_iff_ne] using h1
  | c :: d :: x2, y, h => by
    rw [List.cons_append] at h
    rcases (collapsedOk_cons_iff c ((d :: x2) ++ y)).mp h with ⟨h1, h2, h3⟩
    have ih := collapsedOk_append_left (d :: x2) y h3
    refine (collapsedOk_cons_iff c (d :: x2)).mpr ⟨h1, ?_, ih⟩
    intro e he
    refine h2 e ?_
    rw [List.cons_append]
    simpa using he

lemma norm_collapsedOk_aux : ∀ (n : Nat) (l : List Char), l.length ≤ n →
    collapsedOk l = true → collapsedOk (normNewlines l) = true := by
  intro n
  induction n with
  | zero =>
    intro l h _
    have hl : l = [] := List.length_eq_zero.mp (Nat.le_zero.mp h)
    subst hl
    rfl
  | succ m ih =>
    intro l hlen hok
    cases l with
    | nil => rfl
    | cons a r =>
      rcases (collapsedOk_cons_iff a r).mp hok with ⟨h1, h2, h3⟩
      by_cases ha : a = '\n'
      · rw [normNewlines_cons, if_pos ha]
        rcases hw : wsNlIdx r with _ | k
        · simp only
          refine (collapsedOk_cons_iff a (normNewlines r)).mpr ⟨h1, ?_,
            ih r (by simpa using hlen) h3⟩
          intro d hd
          subst ha
          rintro ⟨h4, _⟩
          cases h4
        · simp only
          have hlen2 : (r.drop (k + 1)).length ≤ m := by
            rw [List.length_drop]
            simp only [List.length_cons] at hlen
            omega
          have hd : collapsedOk (normNewlines (r.drop (k + 1))) = true :=
            ih _ hlen2 (collapsedOk_drop (k + 1) r h3)
          refine (collapsedOk_cons_iff _ _).mpr ⟨by decide, ?_,
            (collapsedOk_cons_iff _ _).mpr ⟨by decide, ?_, hd⟩⟩
          · rintro d _ ⟨h4, _⟩
            cases h4
          · rintro d _ ⟨h4, _⟩
            cases h4
      · rw [normNewlines_cons_nonNl ha]
        refine (collapsedOk_cons_iff a (normNewlines r)).mpr ⟨h1, ?_,
          ih r (by simpa using hlen) h3⟩
        intro d hd
        rw [norm_head r] at hd
        exact h2 d hd

lemma norm_collapsedOk {l : List Char} (h : collapsedOk l = true) :
    collapsedOk (normNewlines l) = true :=
  norm_collapsedOk_aux l.length l le_rfl h

/-! ## `nlOk` stability under trimming -/

lemma nlCond_append_left : ∀ (x y : List Char), nlCond (x ++ y) = true →
    nlCond x = true := by
  intro x y h
  cases x with
  | nil => exact nlCond_nil
  | cons a x2 =>
    have hrun : runHasNl (a :: x2) = true → runHasNl ((a :: x2) ++ y) = true :=
      runHasNl_append_mono _ y
    by_cases ha : a = '\n'
    · subst ha
      rw [List.cons_append, nlCond_cons_nl] at h
      rw [nlCond_cons_nl]
      have h2 : runHasNl (x2 ++ y) = false := by simpa using h
      cases hx : runHasNl x2
      · rfl
      · rw [runHasNl_append_mono x2 y hx] at h2
        cases h2
    · rw [List.cons_append, nlCond_cons_other ha] at h
      rw [nlCond_cons_other ha]
      have h2 : runHasNl (a :: (x2 ++ y)) = false := by simpa using h
      cases hx : runHasNl (a :: x2)
      · rfl
      · rw [← List.cons_append] at h2
        rw [runHasNl_append_mono (a :: x2) y hx] at h2
        cases h2

lemma nlOk_append_left : ∀ (x y : List Char), nlOk (x ++ y) = true → nlOk x = true := by
  intro x y
  induction x with
  | nil => intro _; rfl
  | cons c x2 ih =>
    intro h
    rw [List.cons_append] at h
    have htail : nlOk x2 = true := ih (nlOk_tail h)
    refine nlOk_cons_of (fun hc => ?_) htail
    exact nlCond_append_left x2 y (nlOk_cons_cond hc h)

lemma nlOk_dropWhile {p : Char → Bool} : ∀ (l : List Char), nlOk l = true →
    nlOk (l.dropWhile p) = true := by
  intro l
  induction l with
  | nil => intro _; rfl
  | cons c r ih =>
    intro h
    rw [List.dropWhile_cons]
    by_cases hp : p c = true
    · rw [if_pos hp]
      exact ih (nlOk_tail h)
    · rw [if_neg hp]
      exact h

/-! ## Trim lemmas -/

lemma dropWhile_ws_head : ∀ l : List Char, headNonWs (l.dropWhile isJsWs) = true := by
  intro l
  induction l with
  | nil => rfl
  | cons c r ih =>
    rw [List.dropWhile_cons]
    by_cases hw : isJsWs c = true
    · rw [if_pos hw]
      exact ih
    · rw [if_neg hw]
      simpa [headNonWs] using hw

lemma trimRight_front (l : List Char) :
    l = trimRightWs l ++ (l.reverse.takeWhile isJsWs).reverse := by
  unfold trimRightWs
  calc l = l.reverse.reverse := (List.reverse_reverse l).symm
    _ = (l.reverse.takeWhile isJsWs ++ l.reverse.dropWhile isJsWs).reverse := by
        rw [List.takeWhile_append_dropWhile]
    _ = (l.reverse.dropWhile isJsWs).reverse ++ (l.reverse.takeWhile isJsWs).reverse := by
        rw [List.reverse_append]

lemma trimRight_reverse_head (l : List Char) :
    headNonWs (trimRightWs l).reverse = true := by
  unfold trimRightWs
  rw [List.reverse_reverse]
  exact dropWhile_ws_head l.reverse

lemma headNonWs_of_front : ∀ (x y : List Char), x ≠ [] →
    headNonWs (x ++ y) = true → headNonWs x = true := by
  intro x y hne h
  cases x with
  | nil => exact absurd rfl hne
  | cons c r => exact h

lemma trim_tne (l : List Char) : trimWs l = [] ∨ tneL (trimWs l) = true := by
  by_cases hnil : trimWs l = []
  · exact Or.inl hnil
  · right
    have hhead : headNonWs (trimWs l) = true := by
      have h1 : headNonWs (trimLeftWs l) = true := dropWhile_ws_head l
      have h2 := trimRight_front (trimLeftWs l)
      refine headNonWs_of_front (trimWs l)
        ((List.takeWhile isJsWs (trimLeftWs l).reverse).reverse) hnil ?_
      show headNonWs (trimRightWs (trimLeftWs l)
        ++ (List.takeWhile isJsWs (trimLeftWs l).reverse).reverse) = true
      rw [← h2]
      exact h1
    have hlast : headNonWs (trimWs l).reverse = true := trimRight_reverse_head _
    simp only [tneL, Bool.and_eq_true]
    exact ⟨⟨by simpa [List.isEmpty_iff] using hnil, hhead⟩, hlast⟩

lemma trim_eq_self {l : List Char} (h : tneL l = true) : trimWs l = l := by
  simp only [tneL, Bool.and_eq_true] at h
  obtain ⟨⟨hne, hhead⟩, hlast⟩ := h
  have hleft : trimLeftWs l = l := by
    unfold trimLeftWs
    cases l with
    | nil => rfl
    | cons c r =>
      rw [List.dropWhile_cons, if_neg (by simpa [headNonWs] using hhead)]
  have hright : trimRightWs l = l := by
    unfold trimRightWs
    have : l.reverse.dropWhile isJsWs = l.reverse := by
      cases hr : l.reverse with
      | nil => rfl
      | cons c r =>
        rw [List.dropWhile_cons, if_neg ?_]
        rw [hr] at hlast
        simpa [headNonWs] using hlast
    rw [this, List.reverse_reverse]
  unfold trimWs
  rw [hleft, hright]

lemma trim_allWs {l : List Char} (h : ∀ c ∈ l, isJsWs c = true) : trimWs l = [] := by
  have h1 : trimLeftWs l = [] := by
    unfold trimLeftWs
    exact List.dropWhile_eq_nil_iff.mpr h
  unfold trimWs
  rw [h1]
  rfl

lemma nlOk_trimWs {l : List Char} (h : nlOk l = true) : nlOk (trimWs l) = true := by
  unfold trimWs
  have h1 : nlOk (trimLeftWs l) = true := nlOk_dropWhile l h
  have h2 := trimRight_front (trimLeftWs l)
  exact nlOk_append_left _ _ (by rw [← h2]; exact h1)

lemma collapsedOk_dropWhile {p : Char → Bool} : ∀ (l : List Char), collapsedOk l = true →
    collapsedOk (l.dropWhile p) = true := by
  intro l
  induction l with
  | nil => intro _; rfl
  | cons c r ih =>
    intro h
    rw [List.dropWhile_cons]
    by_cases hp : p c = true
    · rw [if_pos hp]
      exact ih (collapsedOk_tail h)
    · rw [if_neg hp]
      exact h

lemma collapsedOk_trimWs {l : List Char} (h : collapsedOk l = true) :
    collapsedOk (trimWs l) = true := by
  unfold trimWs
  have h1 : collapsedOk (trimLeftWs l) = true := collapsedOk_dropWhile l h
  have h2 := trimRight_front (trimLeftWs l)
  exact collapsedOk_append_left _ _ (by rw [← h2]; exact h1)

/-! ## `cleanText`: idempotence, emptiness, and the append law -/

lemma cleanText_data (s : String) :
    (cleanText s).data = trimWs (normNewlines (collapseSpaceTab s.data)) := rfl

lemma cleanText_allWs {s : String} (h : ∀ c ∈ s.data, isJsWs c = true) :
    cleanText s = "" := by
  apply String.ext
  rw [cleanText_data]
  have h1 := cst_allWs s.data h
  have h2 := norm_allWs h1
  rw [trim_allWs h2]

lemma cleanText_tne_or_empty (s : String) :
    cleanText s = "" ∨ tneL (cleanText s).data = true := by
  rcases trim_tne (normNewlines (collapseSpaceTab s.data)) with h | h
  · left
    apply String.ext
    rw [cleanText_data, h]
  · right
    rw [cleanText_data]
    exact h

lemma exists_last_of_reverse {l : List Char} {e : Char} {rs : List Char}
    (h : l.reverse = e :: rs) : l = rs.reverse ++ [e] := by
  have := congrArg List.reverse h
  rw [List.reverse_reverse, List.reverse_cons] at this
  exact this

lemma tneL_parts {l : List Char} (h : tneL l = true) :
    ∃ c restc as e, l = c :: restc ∧ l = as ++ [e]
      ∧ isJsWs c = false ∧ isJsWs e = false := by
  simp only [tneL, Bool.and_eq_true] at h
  obtain ⟨⟨hne, hhead⟩, hlast⟩ := h
  cases hl : l with
  | nil =>
    subst hl
    simp [List.isEmpty] at hne
  | cons c restc =>
    cases hr : l.reverse with
    | nil =>
      rw [List.reverse_eq_nil_iff] at hr
      rw [hr] at hl
      cases hl
    | cons e rs =>
      refine ⟨c, restc, rs.reverse, e, rfl, ?_, ?_, ?_⟩
      · rw [← hl]
        exact exists_last_of_reverse hr
      · rw [hl] at hhead
        simpa [headNonWs] using hhead
      · rw [hr] at hlast
        simpa [headNonWs] using hlast

lemma headNonWs_reverse_of_last {l : List Char} {e : Char} (hws : isJsWs e = false)
    (h : ∃ z, l = z ++ [e]) : headNonWs l.reverse = true := by
  rcases h with ⟨z, rfl⟩
  rw [List.reverse_append]
  simp [headNonWs, hws]

/-- The core `cleanText` pipeline fixes trimmed non-empty input heads and
tails: the output again starts and ends with the original non-whitespace
characters, and the final trim is a no-op. -/
lemma core_tne {x : List Char} (hx : tneL x = true) :
    tneL (normNewlines (collapseSpaceTab x)) = true
      ∧ trimWs (normNewlines (collapseSpaceTab x)) = normNewlines (collapseSpaceTab x) := by
  rcases tneL_parts hx with ⟨c, restc, as, e, hcons, hlastd, hc, he⟩
  have hcst : isSpaceTab c = false := not_ws_not_st hc
  have hest : isSpaceTab e = false := not_ws_not_st he
  -- head of the collapse
  rcases cst_head_eq (l := restc) hcst with ⟨t1, ht1⟩
  have hcolhead : (collapseSpaceTab x).head? = some c := by
    rw [hcons, ht1]
    rfl
  -- last of the collapse
  rcases cst_last as e hest with ⟨z, hz⟩
  have hcol_last : collapseSpaceTab x = z ++ [e] := by
    rw [hlastd, hz]
  -- norm
  have hnhead : (normNewlines (collapseSpaceTab x)).head? = some c := by
    rw [norm_head, hcolhead]
  rcases norm_last he z with ⟨z2, hz2⟩
  have hnlast : normNewlines (collapseSpaceTab x) = z2 ++ [e] := by
    rw [hcol_last, hz2]
  have htne : tneL (normNewlines (collapseSpaceTab x)) = true := by
    cases hn : normNewlines (collapseSpaceTab x) with
    | nil => rw [hn] at hnhead; cases hnhead
    | cons y ys =>
      rw [hn] at hnhead hnlast
      simp only [List.head?_cons, Option.some.injEq] at hnhead
      subst hnhead
      simp only [tneL, Bool.and_eq_true]
      refine ⟨⟨rfl, by simpa [headNonWs] using hc⟩, ?_⟩
      exact headNonWs_reverse_of_last he ⟨z2, hnlast⟩
  exact ⟨htne, trim_eq_self htne⟩

lemma cleanText_of_tne {x : List Char} (hx : tneL x = true) :
    (cleanText ⟨x⟩).data = normNewlines (collapseSpaceTab x) := by
  rw [cleanText_data]
  exact (core_tne hx).2

lemma cleanText_ne_empty_of_tne {s : String} (h : tneL s.data = true) :
    cleanText s ≠ "" := by
  intro h2
  have h3 : (cleanText s).data = [] := by rw [h2]
  have h4 : (cleanText ⟨s.data⟩).data = normNewlines (collapseSpaceTab s.data) :=
    cleanText_of_tne h
  have h5 : (⟨s.data⟩ : String) = s := rfl
  rw [h5] at h4
  rw [h4] at h3
  rcases tneL_parts (core_tne h).1 with ⟨c, restc, _, _, hcons, _⟩
  rw [hcons] at h3
  cases h3

/-- C9 machinery: `cleanText` is idempotent. -/
lemma cleanText_idem_aux (s : String) : cleanText (cleanText s) = cleanText s := by
  have hcu : collapsedOk (normNewlines (collapseSpaceTab s.data)) = true :=
    norm_collapsedOk (cst_ok s.data)
  have hnu : nlOk (normNewlines (collapseSpaceTab s.data)) = true := norm_ok _
  have hct := collapsedOk_trimWs hcu
  have hnt := nlOk_trimWs hnu
  have h1 := cst_eq_self _ hct
  have h2 := norm_eq_self hnt
  have h3 : trimWs (trimWs (normNewlines (collapseSpaceTab s.data)))
      = trimWs (normNewlines (collapseSpaceTab s.data)) := by
    rcases trim_tne (normNewlines (collapseSpaceTab s.data)) with h | h
    · rw [h]
      rfl
    · exact trim_eq_self h
  apply String.ext
  rw [cleanText_data, cleanText_data, h1, h2, h3]

lemma cleanText_append {a b : String} (ha : tneL a.data = true) (hb : tneL b.data = true) :
    cleanText (a ++ " " ++ b) = cleanText a ++ " " ++ cleanText b := by
  rcases tneL_parts ha with ⟨ca, resta, asa, ea, hconsa, hlasta, hca, hea⟩
  rcases tneL_parts hb with ⟨cb, restb, asb, eb, hconsb, hlastb, hcb, heb⟩
  apply String.ext
  have hRHS : (cleanText a ++ " " ++ cleanText b).data
      = (cleanText a).data ++ " ".data ++ (cleanText b).data := by
    rw [String.data_append, String.data_append]
  have hLHSdata : (a ++ " " ++ b).data = (asa ++ [ea]) ++ ' ' :: b.data := by
    rw [String.data_append, String.data_append, ← hlasta]
    simp
  rw [hRHS, cleanText_data, hLHSdata]
  -- collapse
  have hcol1 : collapseSpaceTab ((asa ++ [ea]) ++ ' ' :: b.data)
      = collapseSpaceTab (asa ++ [ea]) ++ collapseSpaceTab (' ' :: b.data) := by
    rw [List.append_assoc, List.singleton_append]
    rw [cst_append asa ea (not_ws_not_st hea) (' ' :: b.data)]
  have hcol2 : collapseSpaceTab (' ' :: b.data) = ' ' :: collapseSpaceTab b.data := by
    rw [hconsb, cst_cons2, if_pos (by decide), if_neg (by simp [not_ws_not_st hcb])]
  -- norm
  rcases cst_last asa ea (not_ws_not_st hea) with ⟨z, hz⟩
  have hnorm1 : normNewlines (collapseSpaceTab (asa ++ [ea]) ++ ' ' :: collapseSpaceTab b.data)
      = normNewlines (collapseSpaceTab (asa ++ [ea]))
        ++ normNewlines (' ' :: collapseSpaceTab b.data) := by
    rw [hz]
    exact norm_append hea z (' ' :: collapseSpaceTab b.data)
  have hnorm2 : normNewlines (' ' :: collapseSpaceTab b.data)
      = ' ' :: normNewlines (collapseSpaceTab b.data) :=
    normNewlines_cons_nonNl (by decide) _
  rw [hcol1, hcol2, hnorm1, hnorm2]
  -- trim is a no-op on the combined normalized string
  have htneA := core_tne (hlasta ▸ ha)
  have htneB := core_tne hb
  have hwhole : tneL (normNewlines (collapseSpaceTab (asa ++ [ea]))
      ++ ' ' :: normNewlines (collapseSpaceTab b.data)) = true := by
    rcases tneL_parts htneA.1 with ⟨cA, rA, aA, eA, hconsA, hlastA, hcA, heA⟩
    rcases tneL_parts htneB.1 with ⟨cB, rB, aB, eB, hconsB, hlastB, hcB, heB⟩
    simp only [tneL, Bool.and_eq_true]
    refine ⟨⟨?_, ?_⟩, ?_⟩
    · rw [hconsA]
      simp [List.isEmpty]
    · rw [hconsA]
      simpa [headNonWs] using hcA
    · refine headNonWs_reverse_of_last heB
        ⟨normNewlines (collapseSpaceTab (asa ++ [ea])) ++ ' ' :: aB, ?_⟩
      rw [hlastB]
      simp
  rw [trim_eq_self hwhole]
  -- identify the two sides
  have hAeq : (cleanText a).data = normNewlines (collapseSpaceTab a.data) := by
    have h5 : (⟨a.data⟩ : String) = a := rfl
    rw [← h5]
    exact cleanText_of_tne ha
  have hBeq : (cleanText b).data = normNewlines (collapseSpaceTab b.data) := by
    have h5 : (⟨b.data⟩ : String) = b := rfl
    rw [← h5]
    exact cleanText_of_tne hb
  rw [hAeq, hBeq, hlasta]
  simp

/-! ## Joining parts with single spaces -/

lemma joinSp_cons (x : String) {xs : List String} (h : xs ≠ []) :
    joinSp (x :: xs) = x ++ " " ++ joinSp xs := by
  cases xs with
  | nil => exact absurd rfl h
  | cons y ys => rfl

lemma joinSp_append : ∀ {A : List String} (B : List String), A ≠ [] → B ≠ [] →
    joinSp (A ++ B) = joinSp A ++ " " ++ joinSp B := by
  intro A
  induction A with
  | nil => intro B h _; exact absurd rfl h
  | cons a A2 ih =>
    intro B _ hB
    cases A2 with
    | nil =>
      rw [List.singleton_append, joinSp_cons a hB]
      rfl
    | cons a2 A3 =>
      rw [List.cons_append, joinSp_cons a (by simp),
        joinSp_cons a (by simp : (a2 :: A3) ≠ []), ih B (by simp) hB]
      simp [String.append_assoc]

lemma tneL_append_mid {u v : List Char} (hu : tneL u = true) (hv : tneL v = true) :
    tneL (u ++ ' ' :: v) = true := by
  rcases tneL_parts hu with ⟨cu, ru, au, eu, hconsu, _, hcu, _⟩
  rcases tneL_parts hv with ⟨cv, rv, av, ev, _, hlastv, _, hev⟩
  simp only [tneL, Bool.and_eq_true]
  refine ⟨⟨?_, ?_⟩, ?_⟩
  · rw [hconsu]
    simp [List.isEmpty]
  · rw [hconsu]
    simpa [headNonWs] using hcu
  · refine headNonWs_reverse_of_last hev ⟨u ++ ' ' :: av, ?_⟩
    rw [hlastv]
    simp

lemma tneL_joinSp : ∀ (xs : List String), xs ≠ [] →
    (∀ x ∈ xs, tneL x.data = true) → tneL (joinSp xs).data = true := by
  intro xs
  induction xs with
  | nil => intro h _; exact absurd rfl h
  | cons x xs2 ih =>
    intro _ hall
    cases xs2 with
    | nil => exact hall x (by simp)
    | cons y ys =>
      rw [joinSp_cons x (by simp)]
      have hdata : (x ++ " " ++ joinSp (y :: ys)).data
          = x.data ++ ' ' :: (joinSp (y :: ys)).data := by
        rw [String.data_append, String.data_append]
        simp
      rw [hdata]
      exact tneL_append_mid (hall x (by simp))
        (ih (by simp) (fun z hz => hall z (by simp [hz])))

lemma joinSp_nil_clean : cleanText (joinSp ([] : List String)) = "" := rfl

lemma F_append (A B : List String) (hA : ∀ x ∈ A, tneL x.data = true)
    (hB : ∀ x ∈ B, tneL x.data = true) :
    cleanText (joinSp (A ++ B))
      = joinNE (cleanText (joinSp A)) (cleanText (joinSp B)) := by
  cases A with
  | nil =>
    rw [List.nil_append, joinSp_nil_clean, joinNE, if_pos rfl]
  | cons a A2 =>
    cases B with
    | nil =>
      rw [List.append_nil, joinSp_nil_clean]
      unfold joinNE
      by_cases hx : cleanText (joinSp (a :: A2)) = ""
      · rw [if_pos hx, hx]
      · rw [if_neg hx, if_pos rfl]
    | cons b B2 =>
      have htA : tneL (joinSp (a :: A2)).data = true := tneL_joinSp _ (by simp) hA
      have htB : tneL (joinSp (b :: B2)).data = true := tneL_joinSp _ (by simp) hB
      have hAne : cleanText (joinSp (a :: A2)) ≠ "" := cleanText_ne_empty_of_tne htA
      have hBne : cleanText (joinSp (b :: B2)) ≠ "" := cleanText_ne_empty_of_tne htB
      rw [joinSp_append (b :: B2) (by simp) (by simp),
        cleanText_append htA htB]
      unfold joinNE
      rw [if_neg hAne, if_neg hBne]

/-! ## The walker and the recursive walk agree below a non-excluded root -/

lemma tneL_jsTrim {s : String} (h : jsTrim s ≠ "") : tneL (jsTrim s).data = true := by
  rcases trim_tne s.data with h2 | h2
  · exact absurd (String.ext h2) h
  · exact h2

mutual

lemma allTne_walkerFragsOfNode : ∀ (n : DomNode),
    ∀ x ∈ walkerFragsOfNode n, tneL x.data = true
  | .text s => by
    intro x hx
    unfold walkerFragsOfNode at hx
    by_cases h : jsTrim s ≠ ""
    · rw [if_pos h] at hx
      rcases List.mem_singleton.mp hx with rfl
      exact tneL_jsTrim h
    · rw [if_neg h] at hx
      exact absurd hx (List.not_mem_nil x)
  | .elem i cs => by
    intro x hx
    unfold walkerFragsOfNode at hx
    by_cases h : excludedTags.contains (toLowerStr i.tagName) = true
    · rw [if_pos h] at hx
      exact absurd hx (List.not_mem_nil x)
    · rw [if_neg h] at hx
      exact allTne_walkerFrags cs x hx

lemma allTne_walkerFrags : ∀ (cs : List DomNode),
    ∀ x ∈ walkerFrags cs, tneL x.data = true
  | [] => by
    intro x hx
    exact absurd hx (List.not_mem_nil x)
  | n :: rest => by
    intro x hx
    unfold walkerFrags at hx
    rcases List.mem_append.mp hx with h | h
    · exact allTne_walkerFragsOfNode n x h
    · exact allTne_walkerFrags rest x h

end

lemma allTne_recPartsOfNode (n : DomNode) :
    ∀ x ∈ recPartsOfNode n, tneL x.data = true := by
  intro x hx
  cases n with
  | text s =>
    unfold recPartsOfNode at hx
    by_cases h : jsTrim s ≠ ""
    · rw [if_pos h] at hx
      rcases List.mem_singleton.mp hx with rfl
      exact tneL_jsTrim h
    · rw [if_neg h] at hx
      exact absurd hx (List.not_mem_nil x)
  | elem i cs =>
    unfold recPartsOfNode at hx
    by_cases h : excludedTags.contains (toLowerStr i.tagName) = true
    · rw [if_pos h] at hx
      exact absurd hx (List.not_mem_nil x)
    · rw [if_neg h] at hx
      have hx2 : x ∈ (if cleanText (joinSp (recParts cs)) ≠ ""
          then [cleanText (joinSp (recParts cs))] else []) := hx
      by_cases ht : cleanText (joinSp (recParts cs)) ≠ ""
      · rw [if_pos ht] at hx2
        rcases List.mem_singleton.mp hx2 with rfl
        rcases cleanText_tne_or_empty (joinSp (recParts cs)) with h2 | h2
        · exact absurd h2 ht
        · exact h2
      · rw [if_neg ht] at hx2
        exact absurd hx2 (List.not_mem_nil x)

lemma allTne_recParts : ∀ (cs : List DomNode), ∀ x ∈ recParts cs, tneL x.data = true := by
  intro cs
  induction cs with
  | nil => intro x hx; exact absurd hx (List.not_mem_nil x)
  | cons n rest ih =>
    intro x hx
    unfold recParts at hx
    rcases List.mem_append.mp hx with h | h
    · exact allTne_recPartsOfNode n x h
    · exact ih x h

mutual

lemma flat_node : ∀ (n : DomNode),
    cleanText (joinSp (recPartsOfNode n)) = cleanText (joinSp (walkerFragsOfNode n))
  | .text s => rfl
  | .elem i cs => by
    by_cases h : excludedTags.contains (toLowerStr i.tagName) = true
    · show cleanText (joinSp (if excludedTags.contains (toLowerStr i.tagName)
          then []
          else if cleanText (joinSp (recParts cs)) ≠ ""
            then [cleanText (joinSp (recParts cs))] else []))
        = cleanText (joinSp (if excludedTags.contains (toLowerStr i.tagName)
            then [] else walkerFrags cs))
      rw [if_pos h, if_pos h]
    · show cleanText (joinSp (if excludedTags.contains (toLowerStr i.tagName)
          then []
          else if cleanText (joinSp (recParts cs)) ≠ ""
            then [cleanText (joinSp (recParts cs))] else []))
        = cleanText (joinSp (if excludedTags.contains (toLowerStr i.tagName)
            then [] else walkerFrags cs))
      rw [if_neg h, if_neg h]
      have hrec := flat_list cs
      by_cases ht : cleanText (joinSp (recParts cs)) ≠ ""
      · rw [if_pos ht]
        have hsingle : joinSp [cleanText (joinSp (recParts cs))]
            = cleanText (joinSp (recParts cs)) := rfl
        rw [hsingle, cleanText_idem_aux, hrec]
      · rw [if_neg ht]
        have ht2 : cleanText (joinSp (recParts cs)) = "" := not_ne_iff.mp ht
        rw [show joinSp ([] : List String) = "" from rfl, ← hrec, ht2]
        rfl

lemma flat_list : ∀ (cs : List DomNode),
    cleanText (joinSp (recParts cs)) = cleanText (joinSp (walkerFrags cs))
  | [] => rfl
  | n :: rest => by
    show cleanText (joinSp (recPartsOfNode n ++ recParts rest))
      = cleanText (joinSp (walkerFragsOfNode n ++ walkerFrags rest))
    rw [F_append _ _ (allTne_recPartsOfNode n) (allTne_recParts rest),
      F_append _ _ (allTne_walkerFragsOfNode n) (allTne_walkerFrags rest),
      flat_node n, flat_list rest]

end

mutual

lemma walkerFragsOfNode_nil_of_allWs : ∀ (n : DomNode),
    allWsNode n = true → walkerFragsOfNode n = []
  | .text s => by
    intro h
    unfold allWsNode at h
    have hws : ∀ c ∈ s.data, isJsWs c = true := List.all_eq_true.mp h
    have h2 : jsTrim s = "" := String.ext (trim_allWs hws)
    unfold walkerFragsOfNode
    rw [if_neg (not_ne_iff.mpr h2)]
  | .elem i cs => by
    intro h
    unfold allWsNode at h
    unfold walkerFragsOfNode
    by_cases hex : excludedTags.contains (toLowerStr i.tagName) = true
    · rw [if_pos hex]
    · rw [if_neg hex]
      exact walkerFrags_nil_of_allWs cs h

lemma walkerFrags_nil_of_allWs : ∀ (cs : List DomNode),
    allWsNodes cs = true → walkerFrags cs = []
  | [] => fun _ => rfl
  | n :: rest => by
    intro h
    unfold allWsNodes at h
    rw [Bool.and_eq_true] at h
    unfold walkerFrags
    rw [walkerFragsOfNode_nil_of_allWs n h.1, walkerFrags_nil_of_allWs rest h.2]
    rfl

end

/-! ## Claims C4, C5, C8, C9 -/

/-- C9: `cleanText` (the `normalize` of the spec) is idempotent: applying
it twice gives the same string as applying it once. -/
theorem cleanText_idempotent (s : String) : cleanText (cleanText s) = cleanText s :=
  cleanText_idem_aux s

/-- C8: `cleanText` maps every whitespace-only string (hence the empty
string) to the empty string; it collapses space/tab runs and blank-line
runs as on the concrete example; the space/tab-collapsing pass leaves
every newline in place; and its output is a fixed point of both passes:
no tab or adjacent spaces survive (`collapsedOk`), and after every
newline the following whitespace contains no further newline except a
single one immediately adjacent (`nlOk`, the two-newline normal form). -/
theorem cleanText_normalization_spec :
    (∀ s : String, (∀ c ∈ s.data, isJsWs c = true) → cleanText s = "")
    ∧ cleanText "" = ""
    ∧ cleanText "Hello    world\n\n\ntest   text" = "Hello world\n\ntest text"
    ∧ (∀ l : List Char, (collapseSpaceTab l).count '\n' = l.count '\n')
    ∧ (∀ s : String, collapsedOk (cleanText s).data = true)
    ∧ (∀ s : String, nlOk (cleanText s).data = true) := by
  refine ⟨fun s h => cleanText_allWs h, rfl, by decide, cst_count_nl, fun s => ?_, fun s => ?_⟩
  · rw [cleanText_data]
    exact collapsedOk_trimWs (norm_collapsedOk (cst_ok s.data))
  · rw [cleanText_data]
    exact nlOk_trimWs (norm_ok _)

/-- C8 witness: the whitespace-only string of the spec's edge case
normalizes to the empty string. -/
theorem cleanText_normalization_spec_check :
    (∀ c ∈ ("   \n\n   " : String).data, isJsWs c = true)
    ∧ cleanText "   \n\n   " = "" :=
  ⟨by decide, cleanText_normalization_spec.1 "   \n\n   " (by decide)⟩

/-- C4 counterexample: on a root whose own tag is excluded (`script`),
the TreeWalker path yields the empty string (the ancestor check covers
the root itself) while the recursive fallback, which only filters element
children, returns the script's text — the two paths disagree. -/
theorem walker_recursive_differ_on_excluded_root :
    primaryWalkerText scriptRootEl = ""
    ∧ extractTextRecursive scriptRootEl = "hello world"
    ∧ primaryWalkerText scriptRootEl ≠ extractTextRecursive scriptRootEl := by
  refine ⟨by decide, by decide, by decide⟩

/-- C4 (amended): for every element whose own tag is not in the excluded
set, the TreeWalker-based primary path and the manual recursive fallback
walk produce the same output string; the two differ only on roots whose
own tag is excluded, where the walker prunes everything but the fallback
does not check the root. -/
theorem walker_equals_recursive_amended (e : Element)
    (h : excludedTags.contains (toLowerStr e.info.tagName) = false) :
    primaryWalkerText e = extractTextRecursive e := by
  unfold primaryWalkerText extractTextRecursive walkerFragsOfElement
  rw [if_neg (show ¬(excludedTags.contains (toLowerStr e.info.tagName) = true) by
    rw [h]; exact Bool.false_ne_true)]
  exact (flat_list e.children).symm

/-- C4 witness: the walker path and the recursive fallback agree on the
mixed subtree with `script` and `style` descendants under a `div` root. -/
theorem walker_equals_recursive_amended_check :
    excludedTags.contains (toLowerStr mixedContentEl.info.tagName) = false
    ∧ primaryWalkerText mixedContentEl = extractTextRecursive mixedContentEl :=
  ⟨by decide, walker_equals_recursive_amended mixedContentEl (by decide)⟩

/-- C5 counterexample: when the root itself is a `script` element the
walker collects nothing, so `extractTextFromElement` runs the recursive
fallback, which returns the script's text — the output contains text
whose nearest ancestor tag is in the exclusion set. -/
theorem collectText_includes_script_root_text :
    toLowerStr scriptRootEl.info.tagName = "script"
    ∧ extractTextFromElement scriptRootEl = "hello world" := by
  refine ⟨by decide, by decide⟩

/-- C5 (amended): for every root whose own tag is not excluded,
`extractTextFromElement` equals `cleanText` of the document-order
trimmed non-empty text fragments outside excluded subtrees, joined by
single spaces; a subtree whose text nodes hold only whitespace yields
the empty string (for any root tag); and on the mixed subtree the
`script`/`style` text is dropped while the sibling text survives in
document order. The exclusion guarantee fails only when the root itself
is an excluded tag, where the fallback returns its text anyway. -/
theorem collectText_contract_amended :
    (∀ e : Element, excludedTags.contains (toLowerStr e.info.tagName) = false →
      extractTextFromElement e = cleanText (joinSp (walkerFrags e.children)))
    ∧ (∀ e : Element, allWsNodes e.children = true → extractTextFromElement e = "")
    ∧ extractTextFromElement mixedContentEl = "A B" := by
  refine ⟨fun e h => ?_, fun e h => ?_, by decide⟩
  · show (if (joinSp (walkerFragsOfElement e)).length > 0
        then cleanText (joinSp (walkerFragsOfElement e))
        else extractTextRecursive e)
      = cleanText (joinSp (walkerFrags e.children))
    have hfr : walkerFragsOfElement e = walkerFrags e.children := by
      unfold walkerFragsOfElement
      rw [if_neg (show ¬(excludedTags.contains (toLowerStr e.info.tagName) = true) by
        rw [h]; exact Bool.false_ne_true)]
    rw [hfr]
    by_cases hl : (joinSp (walkerFrags e.children)).length > 0
    · rw [if_pos hl]
    · rw [if_neg hl]
      unfold extractTextRecursive
      exact flat_list e.children
  · have hfr : walkerFragsOfElement e = [] := by
      unfold walkerFragsOfElement
      by_cases hex : excludedTags.contains (toLowerStr e.info.tagName) = true
      · rw [if_pos hex]
      · rw [if_neg hex]
        exact walkerFrags_nil_of_allWs e.children h
    show (if (joinSp (walkerFragsOfElement e)).length > 0
        then cleanText (joinSp (walkerFragsOfElement e))
        else extractTextRecursive e) = ""
    rw [hfr]
    rw [if_neg (by decide : ¬ (joinSp ([] : List String)).length > 0)]
    unfold extractTextRecursive
    rw [flat_list, walkerFrags_nil_of_allWs e.children h]
    rfl

/-- C5 witness: a subtree holding only whitespace text (spaces, newlines,
a tab, split across a nested `span`) collects to the empty string. -/
theorem collectText_contract_amended_check :
    allWsNodes wsOnlyEl.children = true ∧ extractTextFromElement wsOnlyEl = "" :=
  ⟨by decide, collectText_contract_amended.2.1 wsOnlyEl (by decide)⟩

end ThreadsHarvester
